import Mathlib

/-!
Verification development for the nacs-firebase dashboard core.

Part 1 models the double-elimination bracket reconstruction engine
(`parseBracket` and its helpers) from the bracket page component.
Part 2 models the match/player stat normalizers (FACEIT and PandaScore)
and the cross-map aggregator.  Part 3 models the tournament series
grouping (`groupBySerie`).

Numbers: the source is JavaScript, whose stat values are IEEE doubles;
the development models them as exact rationals (`ℚ`), which is the
arithmetic the specification's identities are stated in.  Integer ids
and counts are `Nat`.

The depth computation in the source is memoized recursion over the
previous-match graph; it terminates exactly on acyclic inputs (a domain
invariant the source does not re-validate).  Here it is modelled by
fuel-bounded recursion with fuel `ms.length`, which computes the same
value as the source on every input on which the source terminates
(an acyclic chain visits each match at most once, so `ms.length` lookups
suffice); on a cyclic input, where the source diverges, the fuel runs
out and yields 0.
-/

-- ─── Part 1: bracket model (source: parseBracket and helpers) ───────

inductive RefType where
  | winner
  | loser
deriving DecidableEq, Repr

/-- One entry of `previous_matches`: `{type: 'winner'|'loser', match_id}`. -/
structure PrevRef where
  type : RefType
  match_id : Nat
deriving DecidableEq, Repr

/-- A bracket match as `parseBracket` consumes it.  The source record
(`PSBracketMatch`) carries further presentational fields (opponents,
results, status, …) that `parseBracket` only passes through; they play
no role in the classification and are omitted. -/
structure PSBracketMatch where
  id : Nat
  previous_matches : List PrevRef
deriving DecidableEq, Repr

structure BracketRound where
  label : String
  -- source field name: `matches` (a keyword in Lean)
  roundMatches : List PSBracketMatch
deriving DecidableEq, Repr

structure ParsedBracket where
  upperBracket : List BracketRound
  lowerBracket : List BracketRound
  grandFinal : Option PSBracketMatch
deriving DecidableEq, Repr

/-- `getDepth` of the source, fuel-bounded (see the file comment):
0 for a missing id or an id with no previous matches, otherwise
`1 + max` of the predecessors' depths. -/
def getDepthFuel (ms : List PSBracketMatch) : Nat → Nat → Nat
  | 0, _ => 0
  | fuel + 1, mid =>
    match ms.find? (fun m => m.id == mid) with
    | none => 0
    | some m =>
      match m.previous_matches with
      | [] => 0
      | ps => 1 + (ps.map (fun p => getDepthFuel ms fuel p.match_id)).foldr max 0

/-- The depth the source's memoized `getDepth` computes (on inputs where
it terminates). -/
def depth (ms : List PSBracketMatch) (mid : Nat) : Nat :=
  getDepthFuel ms ms.length mid

/-- Does this match have an incoming loser-type reference? -/
def hasLoserFeed (m : PSBracketMatch) : Bool :=
  m.previous_matches.any (fun p => p.type == RefType.loser)

/-- Membership in the source's `hasLoserIncoming` set: built by adding
`m.id` for every input match `m` with a loser-type previous reference. -/
def hasLoserIncoming (ms : List PSBracketMatch) (mid : Nat) : Bool :=
  ms.any (fun m => m.id == mid && hasLoserFeed m)

/-- `sortedByDepth` of the source: the input list stably sorted by
ascending depth (JavaScript `Array.sort` is a stable sort; insertion
sort is stable and reduces in the kernel). -/
def sortedByDepth (ms : List PSBracketMatch) : List PSBracketMatch :=
  ms.insertionSort (fun a b => depth ms a.id ≤ depth ms b.id)

/-- One call of the source's `classifyLB` on `mid`, acting on the
lower-bracket id set `S`: already classified → unchanged; missing id →
unchanged; loser-feed, or a winner-type predecessor already in `S` →
`mid` is added. -/
def classifyLBStep (ms : List PSBracketMatch) (S : List Nat) (mid : Nat) : List Nat :=
  if mid ∈ S then S
  else
    match ms.find? (fun m => m.id == mid) with
    | none => S
    | some m =>
      if hasLoserIncoming ms mid then mid :: S
      else if m.previous_matches.any
          (fun p => p.type == RefType.winner && decide (p.match_id ∈ S)) then
        mid :: S
      else S

/-- One step of the source's first loop over `sortedByDepth`: add `m.id`
to the set when `m` has an incoming loser reference. -/
def preStep (ms : List PSBracketMatch) (S : List Nat) (m : PSBracketMatch) : List Nat :=
  if hasLoserIncoming ms m.id then (if m.id ∈ S then S else m.id :: S) else S

/-- The `isLBMatch` set after the source's first loop. -/
def preLB (ms : List PSBracketMatch) : List Nat :=
  (sortedByDepth ms).foldl (preStep ms) []

/-- The source's `isLBMatch` set after both loops: first every match with
a loser feed is added (in ascending depth order), then `classifyLB` runs
over the matches in ascending depth order. -/
def isLBids (ms : List PSBracketMatch) : List Nat :=
  (sortedByDepth ms).foldl (fun S m => classifyLBStep ms S m.id) (preLB ms)

/-- The source's `maxDepth`: `Math.max` over the depth cache.  The cache
holds every input match's depth plus 0 for each dangling referenced id,
so on a non-empty input the maximum equals the maximum over the input
matches' depths (every depth is ≥ 0). -/
def maxDepth (ms : List PSBracketMatch) : Nat :=
  (ms.map (fun m => depth ms m.id)).foldr max 0

/-- The grand-final convergence test of the source's first loop: at the
global maximum depth, at least two previous references, some predecessor
not classified lower-bracket and some predecessor classified
lower-bracket. -/
def isConvGF (ms : List PSBracketMatch) (m : PSBracketMatch) : Bool :=
  decide (depth ms m.id = maxDepth ms) &&
  decide (2 ≤ m.previous_matches.length) &&
  m.previous_matches.any (fun p => !(decide (p.match_id ∈ isLBids ms))) &&
  m.previous_matches.any (fun p => decide (p.match_id ∈ isLBids ms))

/-- Grand-final designation: the first convergence match in input order,
else the sole maximum-depth match when it is unique, else none. -/
def findGrandFinal (ms : List PSBracketMatch) : Option PSBracketMatch :=
  match ms.find? (isConvGF ms) with
  | some m => some m
  | none =>
    match ms.filter (fun m => decide (depth ms m.id = maxDepth ms)) with
    | [m] => some m
    | _ => none

/-- The partition loop's skip test: `m` has the designated grand final's id. -/
def skipGF (ms : List PSBracketMatch) (m : PSBracketMatch) : Bool :=
  match findGrandFinal ms with
  | some g => m.id == g.id
  | none => false

def ubMatches (ms : List PSBracketMatch) : List PSBracketMatch :=
  ms.filter (fun m => !skipGF ms m && !(decide (m.id ∈ isLBids ms)))

def lbMatches (ms : List PSBracketMatch) : List PSBracketMatch :=
  ms.filter (fun m => !skipGF ms m && decide (m.id ∈ isLBids ms))

/-- The distinct depths occurring in `l`, ascending (the source collects
them in a Map and sorts the keys numerically). -/
def groupDepths (ms l : List PSBracketMatch) : List Nat :=
  ((l.map (fun m => depth ms m.id)).dedup).insertionSort (fun a b => a ≤ b)

/-- The label the source gives round `idx` (0-based) of `totalRounds`,
where `count` is the number of matches in the round.  The order of the
branches mirrors the source; in JavaScript `totalRounds - 3` can be
negative, but then an earlier branch has already matched, so truncated
subtraction gives the same labels. -/
def roundLabel (isLower : Bool) (totalRounds idx count : Nat) : String :=
  if isLower then
    if idx = totalRounds - 1 then "LB Final"
    else "LB Round " ++ toString (idx + 1)
  else
    if totalRounds ≤ 1 then "Final"
    else if idx = totalRounds - 1 then "UB Final"
    else if idx = totalRounds - 2 then "UB Semifinal"
    else if idx = totalRounds - 3 ∧ count = 4 then "UB Quarterfinal"
    else "UB Round " ++ toString (idx + 1)

def buildRounds (ms l : List PSBracketMatch) (isLower : Bool) : List BracketRound :=
  let depths := groupDepths ms l
  let totalRounds := depths.length
  depths.enum.map (fun di =>
    let roundMatches := l.filter (fun m => depth ms m.id == di.2)
    { label := roundLabel isLower totalRounds di.1 roundMatches.length,
      roundMatches := roundMatches })

/-- Remove the first occurrence of `"UB "` from a character list:
the semantics of JavaScript `label.replace('UB ', '')`, which replaces
only the first occurrence.  (Defined on `List Char` because `String`'s
search functions do not reduce in the kernel.) -/
def stripFirstUB : List Char → List Char
  | [] => []
  | 'U' :: 'B' :: ' ' :: rest => rest
  | c :: rest => c :: stripFirstUB rest

def replaceUBOnce (s : String) : String :=
  String.mk (stripFirstUB s.data)

def parseBracket (ms : List PSBracketMatch) : Option ParsedBracket :=
  if ms.isEmpty then none
  else
    let ub := buildRounds ms (ubMatches ms) false
    let lb := buildRounds ms (lbMatches ms) true
    let ub1 :=
      if lb.length = 0 then
        ub.map (fun r => { r with label := replaceUBOnce r.label })
      else ub
    some { upperBracket := ub1, lowerBracket := lb, grandFinal := findGrandFinal ms }

-- ─── Lemmas: classification folds ───────────────────────────────────

theorem sortedByDepth_perm (ms : List PSBracketMatch) : (sortedByDepth ms).Perm ms :=
  List.perm_insertionSort _ ms

theorem mem_sortedByDepth {ms : List PSBracketMatch} {m : PSBracketMatch} :
    m ∈ sortedByDepth ms ↔ m ∈ ms :=
  (sortedByDepth_perm ms).mem_iff

theorem classifyLBStep_subset {ms : List PSBracketMatch} {S : List Nat} {mid : Nat} :
    S ⊆ classifyLBStep ms S mid := by
  intro x hx
  unfold classifyLBStep
  split
  · exact hx
  · split
    · exact hx
    · split
      · exact List.mem_cons_of_mem _ hx
      · split
        · exact List.mem_cons_of_mem _ hx
        · exact hx

theorem mem_classifyLBStep {ms : List PSBracketMatch} {S : List Nat} {mid x : Nat}
    (hx : x ∈ classifyLBStep ms S mid) : x ∈ S ∨ x = mid := by
  unfold classifyLBStep at hx
  split at hx
  · exact Or.inl hx
  · split at hx
    · exact Or.inl hx
    · split at hx
      · rcases List.mem_cons.mp hx with rfl | hx
        · exact Or.inr rfl
        · exact Or.inl hx
      · split at hx
        · rcases List.mem_cons.mp hx with rfl | hx
          · exact Or.inr rfl
          · exact Or.inl hx
        · exact Or.inl hx

theorem preStep_subset {ms : List PSBracketMatch} {S : List Nat} {m : PSBracketMatch} :
    S ⊆ preStep ms S m := by
  intro x hx
  unfold preStep
  split
  · split
    · exact hx
    · exact List.mem_cons_of_mem _ hx
  · exact hx

theorem mem_preStep {ms : List PSBracketMatch} {S : List Nat} {m : PSBracketMatch} {x : Nat}
    (hx : x ∈ preStep ms S m) : x ∈ S ∨ x = m.id := by
  unfold preStep at hx
  split at hx
  · split at hx
    · exact Or.inl hx
    · rcases List.mem_cons.mp hx with rfl | hx
      · exact Or.inr rfl
      · exact Or.inl hx
  · exact Or.inl hx

theorem mem_preStep_self {ms : List PSBracketMatch} {S : List Nat} {m : PSBracketMatch}
    (h : hasLoserIncoming ms m.id = true) : m.id ∈ preStep ms S m := by
  unfold preStep
  rw [if_pos h]
  split
  · assumption
  · exact List.mem_cons_self _ _

theorem foldl_classify_subset (ms : List PSBracketMatch) (l : List PSBracketMatch) :
    ∀ S : List Nat, S ⊆ l.foldl (fun S m => classifyLBStep ms S m.id) S := by
  induction l with
  | nil => intro S x hx; simpa using hx
  | cons a l ih =>
    intro S x hx
    rw [List.foldl_cons]
    exact ih _ (classifyLBStep_subset hx)

theorem mem_foldl_classify (ms : List PSBracketMatch) (l : List PSBracketMatch) :
    ∀ (S : List Nat) (x : Nat), x ∈ l.foldl (fun S m => classifyLBStep ms S m.id) S →
      x ∈ S ∨ ∃ m ∈ l, x = m.id := by
  induction l with
  | nil => intro S x hx; exact Or.inl (by simpa using hx)
  | cons a l ih =>
    intro S x hx
    rw [List.foldl_cons] at hx
    rcases ih _ x hx with h | ⟨m, hm, rfl⟩
    · rcases mem_classifyLBStep h with h | rfl
      · exact Or.inl h
      · exact Or.inr ⟨a, List.mem_cons_self _ _, rfl⟩
    · exact Or.inr ⟨m, List.mem_cons_of_mem _ hm, rfl⟩

theorem foldl_pre_subset (ms : List PSBracketMatch) (l : List PSBracketMatch) :
    ∀ S : List Nat, S ⊆ l.foldl (preStep ms) S := by
  induction l with
  | nil => intro S x hx; simpa using hx
  | cons a l ih =>
    intro S x hx
    rw [List.foldl_cons]
    exact ih _ (preStep_subset hx)

theorem mem_foldl_pre (ms : List PSBracketMatch) (l : List PSBracketMatch) :
    ∀ (S : List Nat) (x : Nat), x ∈ l.foldl (preStep ms) S → x ∈ S ∨ ∃ m ∈ l, x = m.id := by
  induction l with
  | nil => intro S x hx; exact Or.inl (by simpa using hx)
  | cons a l ih =>
    intro S x hx
    rw [List.foldl_cons] at hx
    rcases ih _ x hx with h | ⟨m, hm, rfl⟩
    · rcases mem_preStep h with h | rfl
      · exact Or.inl h
      · exact Or.inr ⟨a, List.mem_cons_self _ _, rfl⟩
    · exact Or.inr ⟨m, List.mem_cons_of_mem _ hm, rfl⟩

theorem mem_foldl_pre_of_mem (ms : List PSBracketMatch) (l : List PSBracketMatch) :
    ∀ (S : List Nat) (m : PSBracketMatch), m ∈ l → hasLoserIncoming ms m.id = true →
      m.id ∈ l.foldl (preStep ms) S := by
  induction l with
  | nil => intro S m hm; cases hm
  | cons a l ih =>
    intro S m hm h
    rw [List.foldl_cons]
    rcases List.mem_cons.mp hm with rfl | hm
    · exact foldl_pre_subset ms l _ (mem_preStep_self h)
    · exact ih _ m hm h

theorem hasLoserIncoming_of_mem {ms : List PSBracketMatch} {m : PSBracketMatch}
    (hm : m ∈ ms) (h : hasLoserFeed m = true) : hasLoserIncoming ms m.id = true := by
  unfold hasLoserIncoming
  rw [List.any_eq_true]
  exact ⟨m, hm, by simp [h]⟩

theorem isLBids_subset_ids (ms : List PSBracketMatch) :
    ∀ x ∈ isLBids ms, x ∈ ms.map (fun m => m.id) := by
  intro x hx
  unfold isLBids at hx
  rcases mem_foldl_classify ms _ _ x hx with h | ⟨m, hm, rfl⟩
  · unfold preLB at h
    rcases mem_foldl_pre ms _ _ x h with h0 | ⟨m, hm, rfl⟩
    · cases h0
    · exact List.mem_map.mpr ⟨m, mem_sortedByDepth.mp hm, rfl⟩
  · exact List.mem_map.mpr ⟨m, mem_sortedByDepth.mp hm, rfl⟩

-- ─── C10: dangling previous-match references ────────────────────────

/-- A two-match bracket whose first match references the absent id 99. -/
def danglingBracket : List PSBracketMatch :=
  [⟨1, [⟨RefType.winner, 99⟩]⟩, ⟨2, [⟨RefType.winner, 1⟩]⟩]

/-- C10: `parseBracket` is total on inputs with dangling previous-match
references: it returns a bracket for every non-empty input; a match id
absent from the input list gets depth 0 (at every fuel, so it contributes
0 — not an error value — to the `1 + max` depth of any match referencing
it); the lower-bracket id set only ever contains ids of input matches, so
a dangling predecessor counts as not lower-bracket in the grand-final
convergence test, whose not-lower-bracket disjunct it therefore
satisfies. -/
theorem parseBracket_dangling_total (ms : List PSBracketMatch) :
    (ms ≠ [] → (parseBracket ms).isSome = true) ∧
    (∀ fuel mid, mid ∉ ms.map (fun m => m.id) → getDepthFuel ms fuel mid = 0) ∧
    (∀ fuel mid m, ms.find? (fun x => x.id == mid) = some m → m.previous_matches ≠ [] →
      getDepthFuel ms (fuel + 1) mid =
        1 + (m.previous_matches.map (fun p => getDepthFuel ms fuel p.match_id)).foldr max 0) ∧
    (∀ x ∈ isLBids ms, x ∈ ms.map (fun m => m.id)) ∧
    (∀ m : PSBracketMatch, ∀ p ∈ m.previous_matches, p.match_id ∉ ms.map (fun m => m.id) →
      m.previous_matches.any (fun q => !(decide (q.match_id ∈ isLBids ms))) = true) := by
  refine ⟨?_, ?_, ?_, isLBids_subset_ids ms, ?_⟩
  · intro hne
    unfold parseBracket
    rw [if_neg (by simpa [List.isEmpty_iff] using hne)]
    rfl
  · intro fuel mid hmid
    cases fuel with
    | zero => rfl
    | succ fuel =>
      unfold getDepthFuel
      have hfind : ms.find? (fun m => m.id == mid) = none := by
        rw [List.find?_eq_none]
        intro x hx hbeq
        exact hmid (List.mem_map.mpr ⟨x, hx, by simpa using hbeq⟩)
      rw [hfind]
  · intro fuel mid m hfind hne
    cases hps : m.previous_matches with
    | nil => exact absurd hps hne
    | cons a l => simp [getDepthFuel, hfind, hps]
  · intro m p hp hmid
    rw [List.any_eq_true]
    refine ⟨p, hp, ?_⟩
    have : p.match_id ∉ isLBids ms := fun h => hmid (isLBids_subset_ids ms _ h)
    simpa using this

/-- Witness for `parseBracket_dangling_total` on `danglingBracket`. -/
theorem parseBracket_dangling_total_witness :
    (parseBracket danglingBracket).isSome = true ∧
    getDepthFuel danglingBracket 1 99 = 0 ∧
    (PrevRef.mk RefType.winner 99).match_id ∉ danglingBracket.map (fun m => m.id) ∧
    ([PrevRef.mk RefType.winner 99].any
      (fun q => !(decide (q.match_id ∈ isLBids danglingBracket))) = true) :=
  ⟨(parseBracket_dangling_total danglingBracket).1 (by decide),
   (parseBracket_dangling_total danglingBracket).2.1 1 99 (by decide),
   by decide,
   (parseBracket_dangling_total danglingBracket).2.2.2.2 ⟨1, [⟨RefType.winner, 99⟩]⟩
     ⟨RefType.winner, 99⟩ (by decide) (by decide)⟩

-- ─── C4: the Scenario-A single-elimination bracket ──────────────────

/-- The 4-quarterfinal, 2-semifinal, 1-final single-elimination bracket
of the specification's Scenario A: matches 1–4 are the quarterfinals,
5–6 the semifinals fed by winner references, 7 the final; there are no
loser feeds. -/
def singleElimBracket : List PSBracketMatch :=
  [⟨1, []⟩, ⟨2, []⟩, ⟨3, []⟩, ⟨4, []⟩,
   ⟨5, [⟨RefType.winner, 1⟩, ⟨RefType.winner, 2⟩]⟩,
   ⟨6, [⟨RefType.winner, 3⟩, ⟨RefType.winner, 4⟩]⟩,
   ⟨7, [⟨RefType.winner, 5⟩, ⟨RefType.winner, 6⟩]⟩]

/-- C4 counterexample: on the Scenario-A input the upper bracket has
2 rounds, not the claimed 3, and the final (match 7) is designated grand
final rather than remaining in the round list: being the sole match at
the maximum depth, the fallback designates it, and the partition then
excludes it. -/
theorem singleElim_upper_not_three_rounds :
    (parseBracket singleElimBracket).map (fun pb => pb.upperBracket.length) = some 2 ∧
    (parseBracket singleElimBracket).map (fun pb => pb.upperBracket.length) ≠ some 3 ∧
    (parseBracket singleElimBracket).map
      (fun pb => pb.grandFinal.map (fun g => g.id)) = some (some 7) := by
  refine ⟨by decide, by decide, by decide⟩

/-- C4 amended: on the Scenario-A single-elimination input the sole
maximum-depth match (the final, match 7) is designated grand final and
excluded from the rounds; the upper bracket then has two rounds — the
quarterfinal round (4 matches) labeled "Semifinal" and the semifinal
round (2 matches) labeled "Final" (the "UB " prefixes are stripped since
the lower bracket is empty) — and the lower bracket is empty. -/
theorem singleElim_bracket_result :
    parseBracket singleElimBracket = some
      { upperBracket :=
          [{ label := "Semifinal",
             roundMatches := [⟨1, []⟩, ⟨2, []⟩, ⟨3, []⟩, ⟨4, []⟩] },
           { label := "Final",
             roundMatches :=
               [⟨5, [⟨RefType.winner, 1⟩, ⟨RefType.winner, 2⟩]⟩,
                ⟨6, [⟨RefType.winner, 3⟩, ⟨RefType.winner, 4⟩]⟩] }],
        lowerBracket := [],
        grandFinal := some ⟨7, [⟨RefType.winner, 5⟩, ⟨RefType.winner, 6⟩]⟩ } := by
  rfl

-- ─── C3: grand-final designation policy ─────────────────────────────

theorem grandFinal_eq (ms : List PSBracketMatch) (pb : ParsedBracket)
    (h : parseBracket ms = some pb) : pb.grandFinal = findGrandFinal ms := by
  unfold parseBracket at h
  split at h
  · cases h
  · injection h with h2
    subst h2
    rfl

/-- C3: the grand-final policy of `parseBracket`.  If some input match
passes the convergence test (maximum depth, at least two previous
references, at least one predecessor not lower-bracket and at least one
lower-bracket), the designated grand final is such a match; if none
passes and the maximum depth is occupied by exactly one match, that
match is designated; otherwise no grand final is designated. -/
theorem parseBracket_grandFinal_policy (ms : List PSBracketMatch) (pb : ParsedBracket)
    (h : parseBracket ms = some pb) :
    ((∃ m ∈ ms, isConvGF ms m = true) →
      ∃ g, pb.grandFinal = some g ∧ g ∈ ms ∧
        depth ms g.id = maxDepth ms ∧ 2 ≤ g.previous_matches.length ∧
        (∃ p ∈ g.previous_matches, p.match_id ∉ isLBids ms) ∧
        (∃ p ∈ g.previous_matches, p.match_id ∈ isLBids ms)) ∧
    ((¬ ∃ m ∈ ms, isConvGF ms m = true) →
      ∀ g, ms.filter (fun m => decide (depth ms m.id = maxDepth ms)) = [g] →
        pb.grandFinal = some g) ∧
    ((¬ ∃ m ∈ ms, isConvGF ms m = true) →
      (ms.filter (fun m => decide (depth ms m.id = maxDepth ms))).length ≠ 1 →
      pb.grandFinal = none) := by
  have hgf := grandFinal_eq ms pb h
  refine ⟨?_, ?_, ?_⟩
  · rintro ⟨m, hm, hconv⟩
    have hs : (ms.find? (isConvGF ms)).isSome :=
      List.find?_isSome.mpr ⟨m, hm, hconv⟩
    obtain ⟨g, hg⟩ := Option.isSome_iff_exists.mp hs
    have hgconv := List.find?_some hg
    have hmem := List.mem_of_find?_eq_some hg
    refine ⟨g, ?_, hmem, ?_⟩
    · rw [hgf]
      unfold findGrandFinal
      rw [hg]
    · have h4 := hgconv
      simp only [isConvGF, Bool.and_eq_true, decide_eq_true_eq, List.any_eq_true,
        Bool.not_eq_true', decide_eq_false_iff_not] at h4
      obtain ⟨⟨⟨h5, h6⟩, h7⟩, h8⟩ := h4
      exact ⟨h5, h6, h7, h8⟩
  · rintro hnone g hfilter
    have hfind : ms.find? (isConvGF ms) = none := by
      rw [List.find?_eq_none]
      intro x hx hconv
      exact hnone ⟨x, hx, hconv⟩
    rw [hgf]
    unfold findGrandFinal
    rw [hfind, hfilter]
  · rintro hnone hlen
    have hfind : ms.find? (isConvGF ms) = none := by
      rw [List.find?_eq_none]
      intro x hx hconv
      exact hnone ⟨x, hx, hconv⟩
    rw [hgf]
    unfold findGrandFinal
    rw [hfind]
    rcases hfl : ms.filter (fun m => decide (depth ms m.id = maxDepth ms)) with _ | ⟨a, _ | ⟨b, t⟩⟩
    · rw [hfl]
    · exact absurd (by simp [hfl]) hlen
    · rw [hfl]

/-- A standard 4-team double-elimination bracket: 1–2 the upper round 1,
3 the upper final (winner feeds), 4 the lower round 1 (loser feeds),
5 the lower final, 6 the grand final (winner of 3 vs winner of 5). -/
def doubleElimBracket : List PSBracketMatch :=
  [⟨1, []⟩, ⟨2, []⟩,
   ⟨3, [⟨RefType.winner, 1⟩, ⟨RefType.winner, 2⟩]⟩,
   ⟨4, [⟨RefType.loser, 1⟩, ⟨RefType.loser, 2⟩]⟩,
   ⟨5, [⟨RefType.winner, 4⟩, ⟨RefType.loser, 3⟩]⟩,
   ⟨6, [⟨RefType.winner, 3⟩, ⟨RefType.winner, 5⟩]⟩]

/-- The bracket `parseBracket` produces for `doubleElimBracket`. -/
def doubleElimParsed : ParsedBracket :=
  { upperBracket :=
      [{ label := "UB Semifinal", roundMatches := [⟨1, []⟩, ⟨2, []⟩] },
       { label := "UB Final",
         roundMatches := [⟨3, [⟨RefType.winner, 1⟩, ⟨RefType.winner, 2⟩]⟩] }],
    lowerBracket :=
      [{ label := "LB Round 1",
         roundMatches := [⟨4, [⟨RefType.loser, 1⟩, ⟨RefType.loser, 2⟩]⟩] },
       { label := "LB Final",
         roundMatches := [⟨5, [⟨RefType.winner, 4⟩, ⟨RefType.loser, 3⟩]⟩] }],
    grandFinal := some ⟨6, [⟨RefType.winner, 3⟩, ⟨RefType.winner, 5⟩]⟩ }

/-- Witness for `parseBracket_grandFinal_policy` on `doubleElimBracket`. -/
theorem parseBracket_grandFinal_policy_witness :
    ∃ g, doubleElimParsed.grandFinal = some g ∧ g ∈ doubleElimBracket ∧
      depth doubleElimBracket g.id = maxDepth doubleElimBracket ∧
      2 ≤ g.previous_matches.length ∧
      (∃ p ∈ g.previous_matches, p.match_id ∉ isLBids doubleElimBracket) ∧
      (∃ p ∈ g.previous_matches, p.match_id ∈ isLBids doubleElimBracket) :=
  (parseBracket_grandFinal_policy doubleElimBracket doubleElimParsed (by rfl)).1
    (by decide)

-- ─── C2: lower-bracket classification and propagation ───────────────

theorem find?_id_eq_of_mem {ms : List PSBracketMatch} {m : PSBracketMatch}
    (hnd : (ms.map (fun x => x.id)).Nodup) (hm : m ∈ ms) :
    ms.find? (fun x => x.id == m.id) = some m := by
  induction ms with
  | nil => cases hm
  | cons a t ih =>
    rw [List.map_cons, List.nodup_cons] at hnd
    rcases List.mem_cons.mp hm with rfl | hm2
    · rw [List.find?_cons_of_pos _ (by simp)]
    · rw [List.find?_cons_of_neg, ih hnd.2 hm2]
      have : m.id ∈ t.map (fun x => x.id) := List.mem_map.mpr ⟨m, hm2, rfl⟩
      simp only [beq_iff_eq]
      intro heq
      exact hnd.1 (heq ▸ this)

theorem sortedByDepth_sorted (ms : List PSBracketMatch) :
    (sortedByDepth ms).Pairwise (fun a b => depth ms a.id ≤ depth ms b.id) := by
  haveI : IsTotal PSBracketMatch (fun a b => depth ms a.id ≤ depth ms b.id) :=
    ⟨fun a b => Nat.le_total _ _⟩
  haveI : IsTrans PSBracketMatch (fun a b => depth ms a.id ≤ depth ms b.id) :=
    ⟨fun _ _ _ => Nat.le_trans⟩
  exact List.sorted_insertionSort _ ms

/-- C2: the lower-bracket classification of `parseBracket`.  Provided the
input's match ids are distinct and its previous-match references point
strictly downward in depth (true of every acyclic bracket, and what
ascending-depth processing presupposes), the final classification set
satisfies: (1) every match with a loser-type previous reference is
classified lower-bracket, and (2) any match listing an already
lower-bracket match as a winner-type predecessor is classified
lower-bracket as well — the single ascending-depth pass has converged. -/
theorem parseBracket_lb_classification (ms : List PSBracketMatch)
    (hnd : (ms.map (fun m => m.id)).Nodup)
    (hdep : ∀ m ∈ ms, ∀ p ∈ m.previous_matches, ∀ q ∈ ms, q.id = p.match_id →
      depth ms q.id < depth ms m.id) :
    (∀ m ∈ ms, hasLoserFeed m = true → m.id ∈ isLBids ms) ∧
    (∀ m ∈ ms, ∀ q ∈ ms, q.id ∈ isLBids ms →
      (⟨RefType.winner, q.id⟩ : PrevRef) ∈ m.previous_matches → m.id ∈ isLBids ms) := by
  constructor
  · intro m hm hfeed
    unfold isLBids
    exact foldl_classify_subset ms _ _
      (mem_foldl_pre_of_mem ms _ _ m (mem_sortedByDepth.mpr hm)
        (hasLoserIncoming_of_mem hm hfeed))
  · intro m hm q hq hqLB href
    obtain ⟨l₁, l₂, hsplit⟩ := List.append_of_mem (mem_sortedByDepth.mpr hm)
    have hdm : depth ms q.id < depth ms m.id := hdep m hm _ href q hq rfl
    have hiso : isLBids ms =
        l₂.foldl (fun S x => classifyLBStep ms S x.id)
          (classifyLBStep ms
            (l₁.foldl (fun S x => classifyLBStep ms S x.id) (preLB ms)) m.id) := by
      unfold isLBids
      rw [hsplit, List.foldl_append, List.foldl_cons]
    set A := l₁.foldl (fun S x => classifyLBStep ms S x.id) (preLB ms) with hA
    have hqA : q.id ∈ A := by
      rw [hiso] at hqLB
      rcases mem_foldl_classify ms l₂ _ _ hqLB with h | ⟨m2, hm2, heq⟩
      · rcases mem_classifyLBStep h with h | heq
        · exact h
        · rw [heq] at hdm
          exact absurd hdm (lt_irrefl _)
      · exfalso
        have hm2mem : m2 ∈ ms := mem_sortedByDepth.mp
          (by rw [hsplit]; exact List.mem_append_right _ (List.mem_cons_of_mem _ hm2))
        have hqm2 : q = m2 := List.inj_on_of_nodup_map hnd hq hm2mem heq
        subst hqm2
        have hsorted := sortedByDepth_sorted ms
        rw [hsplit, List.pairwise_append] at hsorted
        have hrel := (List.pairwise_cons.mp hsorted.2.1).1 q hm2
        omega
    have hstep : m.id ∈ classifyLBStep ms A m.id := by
      unfold classifyLBStep
      by_cases hmem : m.id ∈ A
      · rw [if_pos hmem]
        exact hmem
      · rw [if_neg hmem]
        have hfind : ms.find? (fun x => x.id == m.id) = some m :=
          find?_id_eq_of_mem hnd hm
        simp only [hfind]
        by_cases hL : hasLoserIncoming ms m.id = true
        · rw [if_pos hL]
          exact List.mem_cons_self _ _
        · rw [if_neg hL]
          have hany : (m.previous_matches.any
              (fun p => p.type == RefType.winner && decide (p.match_id ∈ A))) = true :=
            List.any_eq_true.mpr ⟨⟨RefType.winner, q.id⟩, href, by simp [hqA]⟩
          rw [if_pos hany]
          exact List.mem_cons_self _ _
    rw [hiso]
    exact foldl_classify_subset ms l₂ _ hstep

/-- Witness for `parseBracket_lb_classification` on `doubleElimBracket`:
match 4 has loser feeds, and match 6 (the grand final) lists the already
lower-bracket match 5 as a winner-type predecessor. -/
theorem parseBracket_lb_classification_witness :
    4 ∈ isLBids doubleElimBracket ∧ 6 ∈ isLBids doubleElimBracket :=
  ⟨(parseBracket_lb_classification doubleElimBracket (by decide) (by decide)).1
      ⟨4, [⟨RefType.loser, 1⟩, ⟨RefType.loser, 2⟩]⟩ (by decide) (by decide),
   (parseBracket_lb_classification doubleElimBracket (by decide) (by decide)).2
      ⟨6, [⟨RefType.winner, 3⟩, ⟨RefType.winner, 5⟩]⟩ (by decide)
      ⟨5, [⟨RefType.winner, 4⟩, ⟨RefType.loser, 3⟩]⟩ (by decide) (by decide) (by decide)⟩

-- ─── C1: partition completeness ─────────────────────────────────────

theorem flatten_filter_perm {α β : Type} [DecidableEq β] (f : α → β) :
    ∀ (ds : List β) (l : List α), ds.Nodup → (∀ a ∈ l, f a ∈ ds) →
      ((ds.map (fun d => l.filter (fun a => f a == d))).flatten).Perm l := by
  intro ds
  induction ds with
  | nil =>
    intro l _ hcov
    have hl : l = [] := List.eq_nil_iff_forall_not_mem.mpr
      (fun a ha => by cases hcov a ha)
    subst hl
    rfl
  | cons d ds ih =>
    intro l hnd hcov
    rw [List.nodup_cons] at hnd
    rw [List.map_cons, List.flatten_cons]
    have hstep : ∀ d2 ∈ ds, l.filter (fun a => f a == d2) =
        (l.filter (fun a => !(f a == d))).filter (fun a => f a == d2) := by
      intro d2 hd2
      rw [List.filter_filter]
      refine List.filter_congr ?_
      intro a _
      by_cases h : f a = d2
      · have h1 : (f a == d2) = true := beq_iff_eq.mpr h
        have h2 : (f a == d) = false := by
          rw [beq_eq_false_iff_ne]
          intro heq
          apply hnd.1
          rw [← h, heq] at hd2
          exact hd2
        rw [h1, h2]
        rfl
      · have h1 : (f a == d2) = false := beq_eq_false_iff_ne.mpr h
        rw [h1]
        rfl
    have hjoin : (ds.map (fun d2 => l.filter (fun a => f a == d2))) =
        (ds.map (fun d2 => (l.filter (fun a => !(f a == d))).filter (fun a => f a == d2))) :=
      List.map_congr_left hstep
    rw [hjoin]
    have hcov2 : ∀ a ∈ l.filter (fun a => !(f a == d)), f a ∈ ds := by
      intro a ha
      rw [List.mem_filter] at ha
      rcases List.mem_cons.mp (hcov a ha.1) with h | h
      · exfalso
        have : (f a == d) = true := beq_iff_eq.mpr h
        rw [this] at ha
        exact absurd ha.2 (by simp)
      · exact h
    exact List.Perm.trans
      (List.Perm.append_left _ (ih _ hnd.2 hcov2))
      (List.filter_append_perm _ l)

theorem groupDepths_nodup (ms l : List PSBracketMatch) : (groupDepths ms l).Nodup :=
  (List.perm_insertionSort _ _).symm.nodup (List.nodup_dedup _)

theorem mem_groupDepths {ms l : List PSBracketMatch} {d : Nat} :
    d ∈ groupDepths ms l ↔ d ∈ l.map (fun m => depth ms m.id) := by
  unfold groupDepths
  rw [(List.perm_insertionSort _ _).mem_iff, List.mem_dedup]

theorem buildRounds_roundMatches (ms l : List PSBracketMatch) (b : Bool) :
    (buildRounds ms l b).map (fun r => r.roundMatches) =
      (groupDepths ms l).map (fun d => l.filter (fun m => depth ms m.id == d)) := by
  simp only [buildRounds]
  rw [List.map_map]
  have h := List.enum_map_snd (groupDepths ms l)
  conv_rhs => rw [← h]
  rw [List.map_map]
  rfl

theorem buildRounds_flatten_perm (ms l : List PSBracketMatch) (b : Bool) :
    (((buildRounds ms l b).map (fun r => r.roundMatches)).flatten).Perm l := by
  rw [buildRounds_roundMatches]
  refine flatten_filter_perm (fun m => depth ms m.id) _ l (groupDepths_nodup ms l) ?_
  intro a ha
  exact mem_groupDepths.mpr (List.mem_map.mpr ⟨a, ha, rfl⟩)

theorem filter_id_eq_of_mem {ms : List PSBracketMatch} {g : PSBracketMatch}
    (hnd : (ms.map (fun x => x.id)).Nodup) (hg : g ∈ ms) :
    ms.filter (fun x => x.id == g.id) = [g] := by
  induction ms with
  | nil => cases hg
  | cons a t ih =>
    rw [List.map_cons, List.nodup_cons] at hnd
    rcases List.mem_cons.mp hg with rfl | hg2
    · rw [List.filter_cons_of_pos (by simp)]
      have ht : t.filter (fun x => x.id == g.id) = [] := by
        rw [List.filter_eq_nil_iff]
        intro x hx
        simp only [beq_iff_eq]
        intro heq
        exact hnd.1 (List.mem_map.mpr ⟨x, hx, heq⟩)
      rw [ht]
    · rw [List.filter_cons_of_neg, ih hnd.2 hg2]
      simp only [beq_iff_eq]
      intro heq
      exact hnd.1 (List.mem_map.mpr ⟨g, hg2, heq.symm⟩)

theorem findGrandFinal_mem {ms : List PSBracketMatch} {g : PSBracketMatch}
    (h : findGrandFinal ms = some g) : g ∈ ms := by
  unfold findGrandFinal at h
  cases hf : ms.find? (isConvGF ms) with
  | some m =>
    rw [hf] at h
    injection h with h2
    subst h2
    exact List.mem_of_find?_eq_some hf
  | none =>
    rw [hf] at h
    rcases hfl : ms.filter (fun m => decide (depth ms m.id = maxDepth ms))
        with _ | ⟨a, _ | ⟨b, t⟩⟩ <;> rw [hfl] at h
    · cases h
    · injection h with h2
      subst h2
      exact List.mem_of_mem_filter (hfl ▸ List.mem_cons_self a [])
    · cases h

theorem perm_filter_partition {α : Type} (l : List α) (p q : α → Bool) :
    (l.filter (fun a => !p a && !q a) ++ l.filter (fun a => !p a && q a) ++
      l.filter p).Perm l := by
  have e1 : (l.filter (fun a => !p a)).filter q = l.filter (fun a => !p a && q a) := by
    rw [List.filter_filter]
    exact List.filter_congr (fun a _ => Bool.and_comm _ _)
  have e2 : (l.filter (fun a => !p a)).filter (fun a => !q a) =
      l.filter (fun a => !p a && !q a) := by
    rw [List.filter_filter]
    exact List.filter_congr (fun a _ => Bool.and_comm _ _)
  have h2 := List.filter_append_perm q (l.filter (fun a => !p a))
  rw [e1, e2] at h2
  have h1 := List.filter_append_perm p l
  refine List.Perm.trans List.perm_append_comm ?_
  refine List.Perm.trans (List.Perm.append_left _ List.perm_append_comm) ?_
  refine List.Perm.trans (List.Perm.append_left _ h2) h1

/-- All match ids appearing in a parsed bracket: the upper rounds, the
lower rounds, then the grand final when present. -/
def bracketIds (pb : ParsedBracket) : List Nat :=
  ((pb.upperBracket.map (fun r => r.roundMatches)).flatten.map (fun m => m.id)) ++
  ((pb.lowerBracket.map (fun r => r.roundMatches)).flatten.map (fun m => m.id)) ++
  (match pb.grandFinal with
   | some g => [g.id]
   | none => [])

theorem upperBracket_eq (ms : List PSBracketMatch) (pb : ParsedBracket)
    (h : parseBracket ms = some pb) :
    pb.upperBracket =
      if (buildRounds ms (lbMatches ms) true).length = 0 then
        (buildRounds ms (ubMatches ms) false).map
          (fun r => { r with label := replaceUBOnce r.label })
      else buildRounds ms (ubMatches ms) false := by
  unfold parseBracket at h
  split at h
  · cases h
  · injection h with h2
    subst h2
    rfl

theorem lowerBracket_eq (ms : List PSBracketMatch) (pb : ParsedBracket)
    (h : parseBracket ms = some pb) :
    pb.lowerBracket = buildRounds ms (lbMatches ms) true := by
  unfold parseBracket at h
  split at h
  · cases h
  · injection h with h2
    subst h2
    rfl

/-- C1: partition completeness.  For a non-empty input with distinct
match ids, `parseBracket` succeeds and every input match id appears in
exactly one place among the upper-bracket rounds, the lower-bracket
rounds and the grand-final slot: the multiset of ids in the output is a
permutation of the input ids, so each input id occurs exactly once. -/
theorem parseBracket_partition_complete (ms : List PSBracketMatch)
    (hne : ms ≠ []) (hnd : (ms.map (fun m => m.id)).Nodup) :
    ∃ pb, parseBracket ms = some pb ∧
      (bracketIds pb).Perm (ms.map (fun m => m.id)) ∧
      ∀ i ∈ ms.map (fun m => m.id), (bracketIds pb).count i = 1 := by
  have hsome : (parseBracket ms).isSome = true := by
    unfold parseBracket
    rw [if_neg (by simpa [List.isEmpty_iff] using hne)]
    rfl
  obtain ⟨pb, hpb⟩ := Option.isSome_iff_exists.mp hsome
  have hubm : (pb.upperBracket.map (fun r => r.roundMatches)).flatten.Perm (ubMatches ms) := by
    rw [upperBracket_eq ms pb hpb]
    have hifmap : (if (buildRounds ms (lbMatches ms) true).length = 0 then
          (buildRounds ms (ubMatches ms) false).map
            (fun r => { r with label := replaceUBOnce r.label })
        else buildRounds ms (ubMatches ms) false).map (fun r => r.roundMatches) =
        (buildRounds ms (ubMatches ms) false).map (fun r => r.roundMatches) := by
      split
      · rw [List.map_map]
        rfl
      · rfl
    rw [hifmap]
    exact buildRounds_flatten_perm ms (ubMatches ms) false
  have hlbm : (pb.lowerBracket.map (fun r => r.roundMatches)).flatten.Perm (lbMatches ms) := by
    rw [lowerBracket_eq ms pb hpb]
    exact buildRounds_flatten_perm ms (lbMatches ms) true
  have hperm : (bracketIds pb).Perm (ms.map (fun m => m.id)) := by
    unfold bracketIds
    rw [grandFinal_eq ms pb hpb]
    cases hgf : findGrandFinal ms with
    | some g =>
      have hmem := findGrandFinal_mem hgf
      have hub2 : ubMatches ms =
          ms.filter (fun m => !(m.id == g.id) && !(decide (m.id ∈ isLBids ms))) := by
        unfold ubMatches
        refine List.filter_congr ?_
        intro m _
        have hsk : skipGF ms m = (m.id == g.id) := by
          unfold skipGF
          rw [hgf]
        rw [hsk]
      have hlb2 : lbMatches ms =
          ms.filter (fun m => !(m.id == g.id) && decide (m.id ∈ isLBids ms)) := by
        unfold lbMatches
        refine List.filter_congr ?_
        intro m _
        have hsk : skipGF ms m = (m.id == g.id) := by
          unfold skipGF
          rw [hgf]
        rw [hsk]
      have hfp : ms.filter (fun m => m.id == g.id) = [g] :=
        filter_id_eq_of_mem hnd hmem
      have hpart : (ubMatches ms ++ lbMatches ms ++ [g]).Perm ms := by
        rw [hub2, hlb2, ← hfp]
        exact perm_filter_partition ms (fun m => m.id == g.id)
          (fun m => decide (m.id ∈ isLBids ms))
      have hall : ((pb.upperBracket.map (fun r => r.roundMatches)).flatten ++
          (pb.lowerBracket.map (fun r => r.roundMatches)).flatten ++ [g]).Perm ms :=
        List.Perm.trans
          (List.Perm.append (List.Perm.append hubm hlbm) (List.Perm.refl [g])) hpart
      have hmap := List.Perm.map (fun m => m.id) hall
      simpa [List.map_append] using hmap
    | none =>
      have hub2 : ubMatches ms = ms.filter (fun m => !(decide (m.id ∈ isLBids ms))) := by
        unfold ubMatches
        refine List.filter_congr ?_
        intro m _
        have hsk : skipGF ms m = false := by
          unfold skipGF
          rw [hgf]
        rw [hsk]
        rfl
      have hlb2 : lbMatches ms = ms.filter (fun m => decide (m.id ∈ isLBids ms)) := by
        unfold lbMatches
        refine List.filter_congr ?_
        intro m _
        have hsk : skipGF ms m = false := by
          unfold skipGF
          rw [hgf]
        rw [hsk]
        rfl
      have hpart : (ubMatches ms ++ lbMatches ms).Perm ms := by
        rw [hub2, hlb2]
        exact List.Perm.trans List.perm_append_comm (List.filter_append_perm _ ms)
      have hall : ((pb.upperBracket.map (fun r => r.roundMatches)).flatten ++
          (pb.lowerBracket.map (fun r => r.roundMatches)).flatten).Perm ms :=
        List.Perm.trans (List.Perm.append hubm hlbm) hpart
      have hmap := List.Perm.map (fun m => m.id) hall
      simpa [List.map_append] using hmap
  refine ⟨pb, hpb, hperm, ?_⟩
  intro i hi
  rw [hperm.count_eq]
  exact List.count_eq_one_of_mem hnd hi

/-- Witness for `parseBracket_partition_complete` on `doubleElimBracket`. -/
theorem parseBracket_partition_complete_witness :
    ∃ pb, parseBracket doubleElimBracket = some pb ∧
      (bracketIds pb).Perm (doubleElimBracket.map (fun m => m.id)) ∧
      ∀ i ∈ doubleElimBracket.map (fun m => m.id), (bracketIds pb).count i = 1 :=
  parseBracket_partition_complete doubleElimBracket (by decide) (by decide)

-- ─── Part 2: stat normalizers and cross-map aggregation ─────────────

/-- A raw stat value as the upstream JSON carries it: a number, a string
`parseFloat` can parse (its numeric value is carried as data; string
parsing itself is outside the model), an unparseable string, or
null/undefined. -/
inductive StatVal where
  | num (q : ℚ)
  | strNum (q : ℚ)
  | strBad
  | missing
deriving DecidableEq, Repr

/-- `parseNum` of the FACEIT normalizer: numbers pass through, parseable
strings parse, anything else (null, undefined, NaN) becomes 0. -/
def parseNum (v : StatVal) : ℚ :=
  match v with
  | .num q => q
  | .strNum q => q
  | .strBad => 0
  | .missing => 0

/-- `parseNumOpt` of the FACEIT normalizer: absent or unparseable values
become `none` rather than 0. -/
def parseNumOpt (v : StatVal) : Option ℚ :=
  match v with
  | .num q => some q
  | .strNum q => some q
  | .strBad => none
  | .missing => none

inductive StatColumnKey where
  | kills
  | deaths
  | assists
  | kdDiff
  | kdRatio
  | hsPercent
  | krRatio
  | mvps
  | adr
  | kast
  | rating
deriving DecidableEq, Repr

structure NormalizedPlayerStat where
  playerId : String
  nickname : String
  faceitId : Option String := none
  kills : ℚ
  deaths : ℚ
  assists : ℚ
  kdDiff : ℚ
  kdRatio : ℚ
  hsPercent : Option ℚ := none
  krRatio : Option ℚ := none
  mvps : Option ℚ := none
  adr : Option ℚ := none
  kast : Option ℚ := none
  rating : Option ℚ := none
  tripleKills : Option ℚ := none
  quadroKills : Option ℚ := none
  pentaKills : Option ℚ := none
deriving DecidableEq, Repr

structure NormalizedMapStats where
  mapName : String
  mapNumber : Nat
  team1Score : ℚ
  team2Score : ℚ
  team1Won : Bool
  team1FirstHalf : Option ℚ := none
  team1SecondHalf : Option ℚ := none
  team2FirstHalf : Option ℚ := none
  team2SecondHalf : Option ℚ := none
  team1Overtime : Option ℚ := none
  team2Overtime : Option ℚ := none
  team1Players : List NormalizedPlayerStat
  team2Players : List NormalizedPlayerStat
  team1PlayersCT : Option (List NormalizedPlayerStat) := none
  team1PlayersT : Option (List NormalizedPlayerStat) := none
  team2PlayersCT : Option (List NormalizedPlayerStat) := none
  team2PlayersT : Option (List NormalizedPlayerStat) := none
deriving DecidableEq, Repr

inductive StatSource where
  | faceit
  | hltv
  | grid
  | pandascore
deriving DecidableEq, Repr

structure NormalizedMatchStats where
  source : StatSource
  team1Name : String
  team2Name : String
  team1ImageUrl : Option String := none
  team2ImageUrl : Option String := none
  maps : List NormalizedMapStats
  availableColumns : List StatColumnKey
  hasSideSplits : Bool
deriving DecidableEq, Repr

-- ── FACEIT normalizer (source: normalizeFaceitStats / normalizePlayer) ──

structure FaceitPlayerStats where
  player_id : String
  nickname : String
  player_stats : List (String × StatVal)
deriving DecidableEq, Repr

structure FaceitTeam where
  team_name : String
  team_id : Option String := none
  team_stats : List (String × StatVal)
  players : List FaceitPlayerStats
deriving DecidableEq, Repr

structure FaceitRound where
  round_stats : List (String × String)
  teams : List FaceitTeam
deriving DecidableEq, Repr

structure FaceitMatchStats where
  rounds : List FaceitRound
deriving DecidableEq, Repr

/-- Record-field access `stats[key]`: the stored value, or
undefined (`missing`) when the key is absent. -/
def lookupStat (stats : List (String × StatVal)) (key : String) : StatVal :=
  match stats.find? (fun kv => kv.1 == key) with
  | some kv => kv.2
  | none => .missing

/-- JavaScript `a ?? b` over raw stat values: `b` when `a` is
null/undefined. -/
def statOrElse (a b : StatVal) : StatVal :=
  match a with
  | .missing => b
  | v => v

/-- Optional-chained team-stats access `t?.team_stats?.[key]`. -/
def lookupTeamStat (t : Option FaceitTeam) (key : String) : StatVal :=
  match t with
  | none => .missing
  | some t2 => lookupStat t2.team_stats key

def normalizePlayer (p : FaceitPlayerStats) : NormalizedPlayerStat :=
  let kills := parseNum (lookupStat p.player_stats "Kills")
  let deaths := parseNum (lookupStat p.player_stats "Deaths")
  let assists := parseNum (lookupStat p.player_stats "Assists")
  { playerId := p.player_id
    nickname := p.nickname
    kills := kills
    deaths := deaths
    assists := assists
    kdDiff := kills - deaths
    kdRatio := if deaths > 0 then kills / deaths else kills
    hsPercent := parseNumOpt (lookupStat p.player_stats "Headshots %")
    krRatio := parseNumOpt (lookupStat p.player_stats "K/R Ratio")
    mvps := parseNumOpt (lookupStat p.player_stats "MVPs")
    tripleKills := parseNumOpt (lookupStat p.player_stats "Triple Kills")
    quadroKills := parseNumOpt (lookupStat p.player_stats "Quadro Kills")
    pentaKills := parseNumOpt (lookupStat p.player_stats "Penta Kills") }

/-- The column list the FACEIT normalizer declares (a fixed list in the
source). -/
def faceitAvailableColumns : List StatColumnKey :=
  [.kills, .deaths, .assists, .kdDiff, .kdRatio, .hsPercent, .krRatio, .mvps]

/-- The map name: `round_stats?.Map || "Map i+1"` (JavaScript `||`
treats the empty string as falsy). -/
def faceitMapName (round : FaceitRound) (i : Nat) : String :=
  match round.round_stats.find? (fun kv => kv.1 == "Map") with
  | some kv => if kv.2 = "" then "Map " ++ toString (i + 1) else kv.2
  | none => "Map " ++ toString (i + 1)

def normalizeFaceitMap (ir : Nat × FaceitRound) : NormalizedMapStats :=
  let i := ir.1
  let round := ir.2
  let t1 := round.teams.head?
  let t2 := round.teams[1]?
  let team1Score := parseNum (statOrElse (lookupTeamStat t1 "Final Score")
    (lookupTeamStat t1 "FinalScore"))
  let team2Score := parseNum (statOrElse (lookupTeamStat t2 "Final Score")
    (lookupTeamStat t2 "FinalScore"))
  { mapName := faceitMapName round i
    mapNumber := i + 1
    team1Score := team1Score
    team2Score := team2Score
    team1Won := team1Score > team2Score
    team1FirstHalf := parseNumOpt (lookupTeamStat t1 "First Half Score")
    team1SecondHalf := parseNumOpt (lookupTeamStat t1 "Second Half Score")
    team2FirstHalf := parseNumOpt (lookupTeamStat t2 "First Half Score")
    team2SecondHalf := parseNumOpt (lookupTeamStat t2 "Second Half Score")
    team1Overtime := parseNumOpt (lookupTeamStat t1 "Overtime score")
    team2Overtime := parseNumOpt (lookupTeamStat t2 "Overtime score")
    team1Players := (match t1 with
      | some t => t.players
      | none => []).map normalizePlayer
    team2Players := (match t2 with
      | some t => t.players
      | none => []).map normalizePlayer }

def normalizeFaceitStats (stats : FaceitMatchStats) (team1Name team2Name : String) :
    Option NormalizedMatchStats :=
  if stats.rounds.isEmpty then none
  else
    some { source := .faceit
           team1Name := team1Name
           team2Name := team2Name
           maps := stats.rounds.enum.map normalizeFaceitMap
           availableColumns := faceitAvailableColumns
           hasSideSplits := false }

-- ── PandaScore normalizer (source: normalizePandaScoreStats / normalizePS) ──

structure PSStats where
  kills : ℚ
  deaths : ℚ
  assists : ℚ
  headshots : ℚ
  adr : Option ℚ
  kast : Option ℚ
  rating : Option ℚ
deriving DecidableEq, Repr

structure PSMatchPlayerStats where
  player_id : Nat
  team_id : Nat
  stats : PSStats
  game_id : Nat
deriving DecidableEq, Repr

structure PSWinner where
  id : Nat
  type : String
deriving DecidableEq, Repr

structure PSGame where
  id : Nat
  position : Nat
  status : String
  finished : Bool
  mapName : Option String := none
  winner : Option PSWinner := none
deriving DecidableEq, Repr

/-- Strip a leading `de_` case-insensitively (the source's `/^de_/i`). -/
def stripDePrefix : List Char → List Char
  | 'd' :: 'e' :: '_' :: rest => rest
  | 'd' :: 'E' :: '_' :: rest => rest
  | 'D' :: 'e' :: '_' :: rest => rest
  | 'D' :: 'E' :: '_' :: rest => rest
  | l => l

def capitalizeFirst : List Char → List Char
  | [] => []
  | c :: rest => c.toUpper :: rest

/-- `formatMapName` of the source: `"Unknown"` for a null or empty name,
else the name with a leading `de_` stripped and its first character
upper-cased.  (`game.map?.name ?? null` is collapsed into the
`Option String` argument.) -/
def formatMapName (raw : Option String) : String :=
  match raw with
  | none => "Unknown"
  | some s => if s = "" then "Unknown"
      else String.mk (capitalizeFirst (stripDePrefix s.data))

def normalizePS (playerNames : List (Nat × String)) (ps : PSMatchPlayerStats) :
    NormalizedPlayerStat :=
  let kills := ps.stats.kills
  let deaths := ps.stats.deaths
  let assists := ps.stats.assists
  let hsPercent := if kills > 0 then (ps.stats.headshots / kills) * 100 else 0
  { playerId := toString ps.player_id
    nickname := match playerNames.find? (fun kv => kv.1 == ps.player_id) with
      | some kv => kv.2
      | none => "Player " ++ toString ps.player_id
    kills := kills
    deaths := deaths
    assists := assists
    kdDiff := kills - deaths
    kdRatio := if deaths > 0 then kills / deaths else kills
    hsPercent := some hsPercent
    adr := ps.stats.adr
    kast := ps.stats.kast
    rating := ps.stats.rating }

/-- The six columns the PandaScore normalizer always declares. -/
def psBaseColumns : List StatColumnKey :=
  [.kills, .deaths, .assists, .kdDiff, .kdRatio, .hsPercent]

def normalizePSMap (playerStats : List PSMatchPlayerStats)
    (team1Id team2Id : Nat) (playerNames : List (Nat × String))
    (ig : Nat × PSGame) : NormalizedMapStats :=
  let i := ig.1
  let game := ig.2
  let gamePlayerStats := playerStats.filter (fun ps => ps.game_id == game.id)
  let t1Stats := gamePlayerStats.filter (fun ps => ps.team_id == team1Id)
  let t2Stats := gamePlayerStats.filter (fun ps => ps.team_id == team2Id)
  let t1Won := (game.winner.map (fun w => w.id)) == some team1Id
  let t2Won := (game.winner.map (fun w => w.id)) == some team2Id
  { mapName := formatMapName game.mapName
    mapNumber := i + 1
    team1Score := if t1Won then 1 else 0
    team2Score := if t2Won then 1 else 0
    team1Won := t1Won
    team1Players := t1Stats.map (normalizePS playerNames)
    team2Players := t2Stats.map (normalizePS playerNames) }

def normalizePandaScoreStats (playerStats : List PSMatchPlayerStats)
    (games : List PSGame) (team1Name team2Name : String) (team1Id team2Id : Nat)
    (team1ImageUrl team2ImageUrl : Option String)
    (playerNames : List (Nat × String)) : Option NormalizedMatchStats :=
  if playerStats.isEmpty then none
  else if games.isEmpty then none
  else
    let sortedGames := games.insertionSort (fun a b => a.position ≤ b.position)
    let hasKast := playerStats.any (fun ps => ps.stats.kast.isSome)
    let hasRating := playerStats.any (fun ps => ps.stats.rating.isSome)
    let hasAdr := playerStats.any (fun ps => ps.stats.adr.isSome)
    let maps := ((sortedGames.filter
        (fun g => g.finished || g.status == "running")).enum).map
      (normalizePSMap playerStats team1Id team2Id playerNames)
    if maps.isEmpty then none
    else
      some { source := .pandascore
             team1Name := team1Name
             team2Name := team2Name
             team1ImageUrl := team1ImageUrl
             team2ImageUrl := team2ImageUrl
             maps := maps
             availableColumns := psBaseColumns ++
               (if hasAdr then [StatColumnKey.adr] else []) ++
               (if hasKast then [StatColumnKey.kast] else []) ++
               (if hasRating then [StatColumnKey.rating] else [])
             hasSideSplits := false }

-- ── Cross-map aggregation (source: aggregatePlayerStats) ──

inductive TeamKey where
  | team1Players
  | team2Players
deriving DecidableEq, Repr

def selectTeam (k : TeamKey) (m : NormalizedMapStats) : List NormalizedPlayerStat :=
  match k with
  | .team1Players => m.team1Players
  | .team2Players => m.team2Players

/-- The in-place mutation of `existing` by one further per-map row `p`,
field assignments in source order: kills/deaths/assists summed first, so
the headshot update sees the already-updated kill total. -/
def mergePlayerStat (existing p : NormalizedPlayerStat) : NormalizedPlayerStat :=
  let kills := existing.kills + p.kills
  let deaths := existing.deaths + p.deaths
  let assists := existing.assists + p.assists
  let kdDiff := kills - deaths
  let kdRatio := if deaths > 0 then kills / deaths else kills
  let hsPercent :=
    match p.hsPercent, existing.hsPercent with
    | some ph, some eh =>
      let prevHSCount := (kills - p.kills) * (eh / 100)
      let curHSCount := p.kills * (ph / 100)
      some (if kills > 0 then ((prevHSCount + curHSCount) / kills) * 100 else 0)
    | _, _ => existing.hsPercent
  let mvps :=
    match p.mvps with
    | some pm => some (existing.mvps.getD 0 + pm)
    | none => existing.mvps
  let krRatio :=
    match p.krRatio, existing.krRatio with
    | some pk, some ek => some ((ek + pk) / 2)
    | _, _ => existing.krRatio
  let adr :=
    match p.adr, existing.adr with
    | some pa, some ea => some ((ea + pa) / 2)
    | _, _ => existing.adr
  let kast :=
    match p.kast, existing.kast with
    | some pk, some ek => some ((ek + pk) / 2)
    | _, _ => existing.kast
  let rating :=
    match p.rating, existing.rating with
    | some pv, some ev => some ((ev + pv) / 2)
    | _, _ => existing.rating
  let tripleKills :=
    match p.tripleKills with
    | some a => some (existing.tripleKills.getD 0 + a)
    | none => existing.tripleKills
  let quadroKills :=
    match p.quadroKills with
    | some a => some (existing.quadroKills.getD 0 + a)
    | none => existing.quadroKills
  let pentaKills :=
    match p.pentaKills with
    | some a => some (existing.pentaKills.getD 0 + a)
    | none => existing.pentaKills
  { existing with
    kills := kills
    deaths := deaths
    assists := assists
    kdDiff := kdDiff
    kdRatio := kdRatio
    hsPercent := hsPercent
    mvps := mvps
    krRatio := krRatio
    adr := adr
    kast := kast
    rating := rating
    tripleKills := tripleKills
    quadroKills := quadroKills
    pentaKills := pentaKills }

/-- One iteration of the aggregation loop: a new player id is appended
(the source copies the row into the map), an existing one is merged in
place. -/
def upsertPlayer (acc : List NormalizedPlayerStat) (p : NormalizedPlayerStat) :
    List NormalizedPlayerStat :=
  if acc.any (fun e => e.playerId == p.playerId) then
    acc.map (fun e => if e.playerId == p.playerId then mergePlayerStat e p else e)
  else acc ++ [p]

/-- `aggregatePlayerStats` of the source: fold the selected team's rows
of every map, keyed by player id, in map order (the JavaScript `Map`
iterates in insertion order, modelled by the ordered association list). -/
def aggregatePlayerStats (maps : List NormalizedMapStats) (teamKey : TeamKey) :
    List NormalizedPlayerStat :=
  maps.foldl (fun acc m => (selectTeam teamKey m).foldl upsertPlayer acc) []

-- ─── C6: kill/death derivation invariant ────────────────────────────

/-- The zero-safe kill/death derivation the specification requires of
every emitted player record. -/
def kdInvariant (r : NormalizedPlayerStat) : Prop :=
  r.kdDiff = r.kills - r.deaths ∧
  (0 < r.deaths → r.kdRatio = r.kills / r.deaths) ∧
  (r.deaths = 0 → r.kdRatio = r.kills)

instance (r : NormalizedPlayerStat) : Decidable (kdInvariant r) := by
  unfold kdInvariant
  infer_instance

theorem kdInvariant_normalizePlayer (p : FaceitPlayerStats) :
    kdInvariant (normalizePlayer p) := by
  unfold kdInvariant normalizePlayer
  dsimp only
  refine ⟨rfl, fun h => if_pos h, fun h => if_neg (by rw [h]; exact lt_irrefl 0)⟩

theorem kdInvariant_normalizePS (names : List (Nat × String)) (ps : PSMatchPlayerStats) :
    kdInvariant (normalizePS names ps) := by
  unfold kdInvariant normalizePS
  dsimp only
  refine ⟨rfl, fun h => if_pos h, fun h => if_neg (by rw [h]; exact lt_irrefl 0)⟩

theorem kdInvariant_merge (e p : NormalizedPlayerStat) :
    kdInvariant (mergePlayerStat e p) := by
  unfold kdInvariant mergePlayerStat
  dsimp only
  refine ⟨rfl, fun h => if_pos h, fun h => if_neg (by rw [h]; exact lt_irrefl 0)⟩

theorem kdInvariant_upsert {acc : List NormalizedPlayerStat} {p : NormalizedPlayerStat}
    (hacc : ∀ r ∈ acc, kdInvariant r) (hp : kdInvariant p) :
    ∀ r ∈ upsertPlayer acc p, kdInvariant r := by
  intro r hr
  unfold upsertPlayer at hr
  split at hr
  · rw [List.mem_map] at hr
    obtain ⟨e, he, rfl⟩ := hr
    split
    · exact kdInvariant_merge e p
    · exact hacc e he
  · rcases List.mem_append.mp hr with h | h
    · exact hacc r h
    · rw [List.mem_singleton] at h
      subst h
      exact hp

theorem kdInvariant_foldl_upsert (l : List NormalizedPlayerStat) :
    ∀ acc, (∀ r ∈ acc, kdInvariant r) → (∀ r ∈ l, kdInvariant r) →
      ∀ r ∈ l.foldl upsertPlayer acc, kdInvariant r := by
  induction l with
  | nil => intro acc hacc _ r hr; exact hacc r (by simpa using hr)
  | cons a l ih =>
    intro acc hacc hl r hr
    rw [List.foldl_cons] at hr
    exact ih _ (kdInvariant_upsert hacc (hl a (List.mem_cons_self _ _)))
      (fun x hx => hl x (List.mem_cons_of_mem _ hx)) r hr

theorem kdInvariant_foldl_maps (k : TeamKey) (maps : List NormalizedMapStats) :
    ∀ acc, (∀ r ∈ acc, kdInvariant r) →
      (∀ m ∈ maps, ∀ r ∈ selectTeam k m, kdInvariant r) →
      ∀ r ∈ maps.foldl (fun acc m => (selectTeam k m).foldl upsertPlayer acc) acc,
        kdInvariant r := by
  induction maps with
  | nil => intro acc hacc _ r hr; exact hacc r (by simpa using hr)
  | cons m maps ih =>
    intro acc hacc hmaps r hr
    rw [List.foldl_cons] at hr
    exact ih _ (kdInvariant_foldl_upsert _ _ hacc (hmaps m (List.mem_cons_self _ _)))
      (fun m2 hm2 => hmaps m2 (List.mem_cons_of_mem _ hm2)) r hr

/-- C6: every player record emitted by the FACEIT normalizer or the
PandaScore normalizer satisfies the zero-safe kill/death invariant
(`kdDiff = kills − deaths`; `kdRatio = kills / deaths` when deaths > 0,
else `kills`), and the cross-map aggregator preserves it: whenever all
its input rows satisfy it (as all normalizer outputs do), so does every
aggregated row. -/
theorem normalized_kd_invariant :
    (∀ p : FaceitPlayerStats, kdInvariant (normalizePlayer p)) ∧
    (∀ (names : List (Nat × String)) (ps : PSMatchPlayerStats),
      kdInvariant (normalizePS names ps)) ∧
    (∀ (maps : List NormalizedMapStats) (k : TeamKey),
      (∀ m ∈ maps, ∀ r ∈ selectTeam k m, kdInvariant r) →
      ∀ r ∈ aggregatePlayerStats maps k, kdInvariant r) := by
  refine ⟨kdInvariant_normalizePlayer, kdInvariant_normalizePS, ?_⟩
  intro maps k hin
  unfold aggregatePlayerStats
  exact kdInvariant_foldl_maps k maps [] (by intro r hr; cases hr) hin

/-- A FACEIT player row with string-typed kills (as the API sends). -/
def exFaceitPlayer : FaceitPlayerStats :=
  ⟨"p1", "alice",
   [("Kills", .strNum 15), ("Deaths", .num 5), ("Assists", .num 3),
    ("Headshots %", .strNum 40), ("K/R Ratio", .strNum 1), ("MVPs", .strNum 2)]⟩

/-- A PandaScore per-game stat row. -/
def exPSRow : PSMatchPlayerStats :=
  ⟨10, 1, ⟨20, 10, 4, 8, some 80, some 70, some 1⟩, 100⟩

/-- A normalized per-map row used by the aggregation examples. -/
def exAggRow : NormalizedPlayerStat :=
  { playerId := "p1", nickname := "alice", kills := 10, deaths := 5, assists := 2,
    kdDiff := 5, kdRatio := 2, hsPercent := some 40, krRatio := some 1,
    mvps := some 2 }

/-- A map whose team-1 list is exactly `[exAggRow]`. -/
def exMap : NormalizedMapStats :=
  { mapName := "Mirage", mapNumber := 1, team1Score := 13, team2Score := 7,
    team1Won := true, team1Players := [exAggRow], team2Players := [] }

theorem exAggRow_kd : kdInvariant exAggRow := by
  unfold kdInvariant exAggRow
  norm_num

/-- Witness for `normalized_kd_invariant` on concrete rows. -/
theorem normalized_kd_invariant_witness :
    kdInvariant (normalizePlayer exFaceitPlayer) ∧
    kdInvariant (normalizePS [] exPSRow) ∧
    kdInvariant exAggRow :=
  ⟨normalized_kd_invariant.1 exFaceitPlayer,
   normalized_kd_invariant.2.1 [] exPSRow,
   normalized_kd_invariant.2.2 [exMap] TeamKey.team1Players
     (by
       intro m hm r hr
       rw [List.mem_singleton] at hm
       subst hm
       rw [show selectTeam TeamKey.team1Players exMap = [exAggRow] from rfl,
         List.mem_singleton] at hr
       subst hr
       exact exAggRow_kd)
     exAggRow (List.mem_singleton.mpr rfl)⟩

-- ─── C7: headshot-percentage derivation ─────────────────────────────

/-- A FACEIT player row carrying both a headshot count and the API's
own headshot percentage, chosen inconsistent with each other. -/
def hsCexPlayer : FaceitPlayerStats :=
  ⟨"p2", "bob",
   [("Kills", .num 10), ("Headshots", .num 1), ("Headshots %", .num 73)]⟩

/-- C7 counterexample: the FACEIT normalizer does not derive the
headshot percentage from headshots and kills; it copies the payload's
"Headshots %" field.  Here kills = 10 and the payload's headshot count
is 1, so the claimed derivation would give 10, but the output is 73. -/
theorem faceit_hs_passthrough_cex :
    (normalizePlayer hsCexPlayer).kills = 10 ∧
    (normalizePlayer hsCexPlayer).hsPercent = some 73 ∧
    (normalizePlayer hsCexPlayer).hsPercent ≠ some (100 * 1 / 10) := by
  refine ⟨rfl, rfl, ?_⟩
  have h : (normalizePlayer hsCexPlayer).hsPercent = some 73 := rfl
  rw [h]
  intro hc
  injection hc with hc2
  norm_num at hc2

/-- C7 amended: the PandaScore normalizer derives the headshot
percentage as `100 × headshots / kills` when kills > 0 and 0 when
kills = 0; the FACEIT normalizer instead copies the source-provided
"Headshots %" field through `parseNumOpt`, with no derivation. -/
theorem hs_derivation_amended :
    (∀ (names : List (Nat × String)) (ps : PSMatchPlayerStats),
      (0 < ps.stats.kills → (normalizePS names ps).hsPercent =
        some (100 * ps.stats.headshots / ps.stats.kills)) ∧
      (ps.stats.kills = 0 → (normalizePS names ps).hsPercent = some 0)) ∧
    (∀ p : FaceitPlayerStats,
      (normalizePlayer p).hsPercent = parseNumOpt (lookupStat p.player_stats "Headshots %")) := by
  constructor
  · intro names ps
    constructor
    · intro h
      unfold normalizePS
      dsimp only
      rw [if_pos h]
      congr 1
      field_simp
      ring
    · intro h
      unfold normalizePS
      dsimp only
      rw [if_neg (by rw [h]; exact lt_irrefl 0)]
  · intro p
    rfl

/-- Witness for `hs_derivation_amended` on concrete rows. -/
theorem hs_derivation_amended_witness :
    (normalizePS [] exPSRow).hsPercent = some (100 * 8 / 20) ∧
    (normalizePlayer hsCexPlayer).hsPercent =
      parseNumOpt (lookupStat hsCexPlayer.player_stats "Headshots %") :=
  ⟨(hs_derivation_amended.1 [] exPSRow).1 (by show (0 : ℚ) < 20; norm_num),
   hs_derivation_amended.2 hsCexPlayer⟩

-- ─── C8: availableColumns versus populated keys ─────────────────────

/-- A one-round FACEIT payload whose player stats carry only kills,
deaths and assists: none of the optional columns is present. -/
def colsCexStats : FaceitMatchStats :=
  ⟨[⟨[("Map", "de_mirage")],
     [⟨"T1", none, [("Final Score", .strNum 13)],
       [⟨"p1", "alice", [("Kills", .num 10), ("Deaths", .num 5), ("Assists", .num 2)]⟩]⟩,
      ⟨"T2", none, [("Final Score", .strNum 7)], []⟩]⟩]⟩

/-- C8 counterexample: the FACEIT normalizer always declares `mvps`,
`krRatio` and `hsPercent` among its columns, even for a payload in which
no emitted record populates them — here the sole player row has
`mvps = none` while `mvps` is listed. -/
theorem faceit_columns_cex :
    (normalizeFaceitStats colsCexStats "A" "B").map (fun out => out.availableColumns) =
      some faceitAvailableColumns ∧
    StatColumnKey.mvps ∈ faceitAvailableColumns ∧
    (normalizeFaceitStats colsCexStats "A" "B").map
      (fun out => out.maps.map (fun m => m.team1Players.map (fun r => r.mvps))) =
      some [[none]] := by
  refine ⟨rfl, by decide, rfl⟩

/-- C8 amended: `availableColumns` is not computed from what is actually
populated.  The FACEIT normalizer declares the same fixed eight columns
for every successful run, whether or not the optional ones (hsPercent,
krRatio, mvps) occur in the payload; the PandaScore normalizer declares
its six base columns — each of which it populates in every emitted
record, hsPercent always being computed — plus adr/kast/rating exactly
when some raw stat row (even one belonging to a filtered-out game)
carries a non-null value for that field. -/
theorem availableColumns_policy :
    (∀ (stats : FaceitMatchStats) (t1 t2 : String) (out : NormalizedMatchStats),
      normalizeFaceitStats stats t1 t2 = some out →
      out.availableColumns = faceitAvailableColumns) ∧
    (∀ (playerStats : List PSMatchPlayerStats) (games : List PSGame)
        (t1 t2 : String) (i1 i2 : Nat) (u1 u2 : Option String)
        (names : List (Nat × String)) (out : NormalizedMatchStats),
      normalizePandaScoreStats playerStats games t1 t2 i1 i2 u1 u2 names = some out →
      out.availableColumns = psBaseColumns ++
        (if playerStats.any (fun ps => ps.stats.adr.isSome) then [StatColumnKey.adr] else []) ++
        (if playerStats.any (fun ps => ps.stats.kast.isSome) then [StatColumnKey.kast] else []) ++
        (if playerStats.any (fun ps => ps.stats.rating.isSome) then [StatColumnKey.rating] else [])) ∧
    (∀ (names : List (Nat × String)) (ps : PSMatchPlayerStats),
      ((normalizePS names ps).hsPercent).isSome = true) := by
  refine ⟨?_, ?_, ?_⟩
  · intro stats t1 t2 out h
    unfold normalizeFaceitStats at h
    split at h
    · cases h
    · injection h with h2
      subst h2
      rfl
  · intro playerStats games t1 t2 i1 i2 u1 u2 names out h
    unfold normalizePandaScoreStats at h
    split at h
    · cases h
    · split at h
      · cases h
      · dsimp only at h
        split at h
        · cases h
        · injection h with h2
          subst h2
          rfl
  · intro names ps
    rfl

/-- Witness for `availableColumns_policy` on a concrete input. -/
theorem availableColumns_policy_witness :
    (normalizeFaceitStats colsCexStats "A" "B").map (fun out => out.availableColumns) =
      some faceitAvailableColumns := by
  obtain ⟨out, hout⟩ := Option.isSome_iff_exists.mp
    (show (normalizeFaceitStats colsCexStats "A" "B").isSome = true from rfl)
  rw [hout, Option.map_some',
    availableColumns_policy.1 colsCexStats "A" "B" out hout]

-- ─── C5: cross-map aggregation rules ────────────────────────────────

/-- The running (pairwise) average the source applies to K/R ratio, ADR,
KAST and rating: each further map's value is averaged with the
accumulator. -/
def runningAvg (v0 : ℚ) (vs : List ℚ) : ℚ :=
  vs.foldl (fun acc x => (acc + x) / 2) v0

theorem merge_kills (e p : NormalizedPlayerStat) :
    (mergePlayerStat e p).kills = e.kills + p.kills := rfl

theorem merge_deaths (e p : NormalizedPlayerStat) :
    (mergePlayerStat e p).deaths = e.deaths + p.deaths := rfl

theorem merge_assists (e p : NormalizedPlayerStat) :
    (mergePlayerStat e p).assists = e.assists + p.assists := rfl

theorem merge_playerId (e p : NormalizedPlayerStat) :
    (mergePlayerStat e p).playerId = e.playerId := rfl

theorem merge_mvps (e p : NormalizedPlayerStat) :
    (mergePlayerStat e p).mvps =
      match p.mvps with
      | some pm => some (e.mvps.getD 0 + pm)
      | none => e.mvps := rfl

theorem merge_tripleKills (e p : NormalizedPlayerStat) :
    (mergePlayerStat e p).tripleKills =
      match p.tripleKills with
      | some a => some (e.tripleKills.getD 0 + a)
      | none => e.tripleKills := rfl

theorem merge_quadroKills (e p : NormalizedPlayerStat) :
    (mergePlayerStat e p).quadroKills =
      match p.quadroKills with
      | some a => some (e.quadroKills.getD 0 + a)
      | none => e.quadroKills := rfl

theorem merge_pentaKills (e p : NormalizedPlayerStat) :
    (mergePlayerStat e p).pentaKills =
      match p.pentaKills with
      | some a => some (e.pentaKills.getD 0 + a)
      | none => e.pentaKills := rfl

theorem merge_krRatio (e p : NormalizedPlayerStat) :
    (mergePlayerStat e p).krRatio =
      match p.krRatio, e.krRatio with
      | some pk, some ek => some ((ek + pk) / 2)
      | _, _ => e.krRatio := rfl

theorem merge_adr (e p : NormalizedPlayerStat) :
    (mergePlayerStat e p).adr =
      match p.adr, e.adr with
      | some pa, some ea => some ((ea + pa) / 2)
      | _, _ => e.adr := rfl

theorem merge_kast (e p : NormalizedPlayerStat) :
    (mergePlayerStat e p).kast =
      match p.kast, e.kast with
      | some pk, some ek => some ((ek + pk) / 2)
      | _, _ => e.kast := rfl

theorem merge_rating (e p : NormalizedPlayerStat) :
    (mergePlayerStat e p).rating =
      match p.rating, e.rating with
      | some pv, some ev => some ((ev + pv) / 2)
      | _, _ => e.rating := rfl

theorem merge_hsPercent (e p : NormalizedPlayerStat) :
    (mergePlayerStat e p).hsPercent =
      match p.hsPercent, e.hsPercent with
      | some ph, some eh =>
        some (if 0 < e.kills + p.kills then
          (((e.kills + p.kills) - p.kills) * (eh / 100) + p.kills * (ph / 100)) /
            (e.kills + p.kills) * 100
        else 0)
      | _, _ => e.hsPercent := rfl

theorem foldl_merge_sums (rs : List NormalizedPlayerStat) :
    ∀ r0 : NormalizedPlayerStat,
      (rs.foldl mergePlayerStat r0).kills = r0.kills + (rs.map (fun r => r.kills)).sum ∧
      (rs.foldl mergePlayerStat r0).deaths = r0.deaths + (rs.map (fun r => r.deaths)).sum ∧
      (rs.foldl mergePlayerStat r0).assists = r0.assists + (rs.map (fun r => r.assists)).sum := by
  induction rs with
  | nil => intro r0; refine ⟨by simp, by simp, by simp⟩
  | cons p rs ih =>
    intro r0
    rw [List.foldl_cons]
    obtain ⟨h1, h2, h3⟩ := ih (mergePlayerStat r0 p)
    refine ⟨?_, ?_, ?_⟩
    · rw [h1, merge_kills, List.map_cons, List.sum_cons]
      ring
    · rw [h2, merge_deaths, List.map_cons, List.sum_cons]
      ring
    · rw [h3, merge_assists, List.map_cons, List.sum_cons]
      ring

theorem foldl_merge_kd (rs : List NormalizedPlayerStat) :
    ∀ r0, kdInvariant r0 → kdInvariant (rs.foldl mergePlayerStat r0) := by
  induction rs with
  | nil => intro r0 h; exact h
  | cons p rs ih =>
    intro r0 _
    rw [List.foldl_cons]
    exact ih (mergePlayerStat r0 p) (kdInvariant_merge r0 p)

theorem foldl_merge_mvps (rs : List NormalizedPlayerStat) :
    ∀ (r0 : NormalizedPlayerStat) (v0 : ℚ), r0.mvps = some v0 →
      (∀ r ∈ rs, (r.mvps).isSome = true) →
      (rs.foldl mergePlayerStat r0).mvps =
        some (v0 + (rs.map (fun r => (r.mvps).getD 0)).sum) := by
  induction rs with
  | nil => intro r0 v0 h0 _; simp [h0]
  | cons p rs ih =>
    intro r0 v0 h0 hall
    rw [List.foldl_cons]
    obtain ⟨pv, hpv⟩ := Option.isSome_iff_exists.mp (hall p (List.mem_cons_self _ _))
    have hm : (mergePlayerStat r0 p).mvps = some (v0 + pv) := by
      rw [merge_mvps, hpv, h0]
      rfl
    rw [ih (mergePlayerStat r0 p) (v0 + pv) hm
      (fun r hr => hall r (List.mem_cons_of_mem _ hr))]
    rw [List.map_cons, List.sum_cons, hpv]
    congr 1
    simp only [Option.getD_some]
    ring

theorem foldl_merge_tripleKills (rs : List NormalizedPlayerStat) :
    ∀ (r0 : NormalizedPlayerStat) (v0 : ℚ), r0.tripleKills = some v0 →
      (∀ r ∈ rs, (r.tripleKills).isSome = true) →
      (rs.foldl mergePlayerStat r0).tripleKills =
        some (v0 + (rs.map (fun r => (r.tripleKills).getD 0)).sum) := by
  induction rs with
  | nil => intro r0 v0 h0 _; simp [h0]
  | cons p rs ih =>
    intro r0 v0 h0 hall
    rw [List.foldl_cons]
    obtain ⟨pv, hpv⟩ := Option.isSome_iff_exists.mp (hall p (List.mem_cons_self _ _))
    have hm : (mergePlayerStat r0 p).tripleKills = some (v0 + pv) := by
      rw [merge_tripleKills, hpv, h0]
      rfl
    rw [ih (mergePlayerStat r0 p) (v0 + pv) hm
      (fun r hr => hall r (List.mem_cons_of_mem _ hr))]
    rw [List.map_cons, List.sum_cons, hpv]
    congr 1
    simp only [Option.getD_some]
    ring

theorem foldl_merge_quadroKills (rs : List NormalizedPlayerStat) :
    ∀ (r0 : NormalizedPlayerStat) (v0 : ℚ), r0.quadroKills = some v0 →
      (∀ r ∈ rs, (r.quadroKills).isSome = true) →
      (rs.foldl mergePlayerStat r0).quadroKills =
        some (v0 + (rs.map (fun r => (r.quadroKills).getD 0)).sum) := by
  induction rs with
  | nil => intro r0 v0 h0 _; simp [h0]
  | cons p rs ih =>
    intro r0 v0 h0 hall
    rw [List.foldl_cons]
    obtain ⟨pv, hpv⟩ := Option.isSome_iff_exists.mp (hall p (List.mem_cons_self _ _))
    have hm : (mergePlayerStat r0 p).quadroKills = some (v0 + pv) := by
      rw [merge_quadroKills, hpv, h0]
      rfl
    rw [ih (mergePlayerStat r0 p) (v0 + pv) hm
      (fun r hr => hall r (List.mem_cons_of_mem _ hr))]
    rw [List.map_cons, List.sum_cons, hpv]
    congr 1
    simp only [Option.getD_some]
    ring

theorem foldl_merge_pentaKills (rs : List NormalizedPlayerStat) :
    ∀ (r0 : NormalizedPlayerStat) (v0 : ℚ), r0.pentaKills = some v0 →
      (∀ r ∈ rs, (r.pentaKills).isSome = true) →
      (rs.foldl mergePlayerStat r0).pentaKills =
        some (v0 + (rs.map (fun r => (r.pentaKills).getD 0)).sum) := by
  induction rs with
  | nil => intro r0 v0 h0 _; simp [h0]
  | cons p rs ih =>
    intro r0 v0 h0 hall
    rw [List.foldl_cons]
    obtain ⟨pv, hpv⟩ := Option.isSome_iff_exists.mp (hall p (List.mem_cons_self _ _))
    have hm : (mergePlayerStat r0 p).pentaKills = some (v0 + pv) := by
      rw [merge_pentaKills, hpv, h0]
      rfl
    rw [ih (mergePlayerStat r0 p) (v0 + pv) hm
      (fun r hr => hall r (List.mem_cons_of_mem _ hr))]
    rw [List.map_cons, List.sum_cons, hpv]
    congr 1
    simp only [Option.getD_some]
    ring

theorem foldl_merge_krRatio (rs : List NormalizedPlayerStat) :
    ∀ (r0 : NormalizedPlayerStat) (v0 : ℚ), r0.krRatio = some v0 →
      (∀ r ∈ rs, (r.krRatio).isSome = true) →
      (rs.foldl mergePlayerStat r0).krRatio =
        some (runningAvg v0 (rs.map (fun r => (r.krRatio).getD 0))) := by
  induction rs with
  | nil => intro r0 v0 h0 _; simpa [runningAvg] using h0
  | cons p rs ih =>
    intro r0 v0 h0 hall
    rw [List.foldl_cons]
    obtain ⟨pv, hpv⟩ := Option.isSome_iff_exists.mp (hall p (List.mem_cons_self _ _))
    have hm : (mergePlayerStat r0 p).krRatio = some ((v0 + pv) / 2) := by
      rw [merge_krRatio, hpv, h0]
    rw [ih (mergePlayerStat r0 p) ((v0 + pv) / 2) hm
      (fun r hr => hall r (List.mem_cons_of_mem _ hr))]
    rw [List.map_cons, hpv]
    rfl

theorem foldl_merge_adr (rs : List NormalizedPlayerStat) :
    ∀ (r0 : NormalizedPlayerStat) (v0 : ℚ), r0.adr = some v0 →
      (∀ r ∈ rs, (r.adr).isSome = true) →
      (rs.foldl mergePlayerStat r0).adr =
        some (runningAvg v0 (rs.map (fun r => (r.adr).getD 0))) := by
  induction rs with
  | nil => intro r0 v0 h0 _; simpa [runningAvg] using h0
  | cons p rs ih =>
    intro r0 v0 h0 hall
    rw [List.foldl_cons]
    obtain ⟨pv, hpv⟩ := Option.isSome_iff_exists.mp (hall p (List.mem_cons_self _ _))
    have hm : (mergePlayerStat r0 p).adr = some ((v0 + pv) / 2) := by
      rw [merge_adr, hpv, h0]
    rw [ih (mergePlayerStat r0 p) ((v0 + pv) / 2) hm
      (fun r hr => hall r (List.mem_cons_of_mem _ hr))]
    rw [List.map_cons, hpv]
    rfl

theorem foldl_merge_kast (rs : List NormalizedPlayerStat) :
    ∀ (r0 : NormalizedPlayerStat) (v0 : ℚ), r0.kast = some v0 →
      (∀ r ∈ rs, (r.kast).isSome = true) →
      (rs.foldl mergePlayerStat r0).kast =
        some (runningAvg v0 (rs.map (fun r => (r.kast).getD 0))) := by
  induction rs with
  | nil => intro r0 v0 h0 _; simpa [runningAvg] using h0
  | cons p rs ih =>
    intro r0 v0 h0 hall
    rw [List.foldl_cons]
    obtain ⟨pv, hpv⟩ := Option.isSome_iff_exists.mp (hall p (List.mem_cons_self _ _))
    have hm : (mergePlayerStat r0 p).kast = some ((v0 + pv) / 2) := by
      rw [merge_kast, hpv, h0]
    rw [ih (mergePlayerStat r0 p) ((v0 + pv) / 2) hm
      (fun r hr => hall r (List.mem_cons_of_mem _ hr))]
    rw [List.map_cons, hpv]
    rfl

theorem foldl_merge_rating (rs : List NormalizedPlayerStat) :
    ∀ (r0 : NormalizedPlayerStat) (v0 : ℚ), r0.rating = some v0 →
      (∀ r ∈ rs, (r.rating).isSome = true) →
      (rs.foldl mergePlayerStat r0).rating =
        some (runningAvg v0 (rs.map (fun r => (r.rating).getD 0))) := by
  induction rs with
  | nil => intro r0 v0 h0 _; simpa [runningAvg] using h0
  | cons p rs ih =>
    intro r0 v0 h0 hall
    rw [List.foldl_cons]
    obtain ⟨pv, hpv⟩ := Option.isSome_iff_exists.mp (hall p (List.mem_cons_self _ _))
    have hm : (mergePlayerStat r0 p).rating = some ((v0 + pv) / 2) := by
      rw [merge_rating, hpv, h0]
    rw [ih (mergePlayerStat r0 p) ((v0 + pv) / 2) hm
      (fun r hr => hall r (List.mem_cons_of_mem _ hr))]
    rw [List.map_cons, hpv]
    rfl

theorem foldl_merge_hs (rs : List NormalizedPlayerStat) :
    ∀ (r0 : NormalizedPlayerStat) (h0 : ℚ), r0.hsPercent = some h0 → 0 ≤ r0.kills →
      (∀ r ∈ rs, (r.hsPercent).isSome = true ∧ 0 ≤ r.kills) →
      ((rs.foldl mergePlayerStat r0).hsPercent).isSome = true ∧
      0 ≤ (rs.foldl mergePlayerStat r0).kills ∧
      (rs.foldl mergePlayerStat r0).kills *
          ((rs.foldl mergePlayerStat r0).hsPercent).getD 0 =
        r0.kills * h0 + (rs.map (fun r => r.kills * (r.hsPercent).getD 0)).sum := by
  induction rs with
  | nil =>
    intro r0 h0 hh0 hk0 _
    refine ⟨by simp [hh0], hk0, by simp [hh0]⟩
  | cons p rs ih =>
    intro r0 h0 hh0 hk0 hall
    rw [List.foldl_cons]
    obtain ⟨ph, hph⟩ := Option.isSome_iff_exists.mp (hall p (List.mem_cons_self _ _)).1
    have hpk : 0 ≤ p.kills := (hall p (List.mem_cons_self _ _)).2
    have hkm : (mergePlayerStat r0 p).kills = r0.kills + p.kills := merge_kills r0 p
    have hnn : 0 ≤ (mergePlayerStat r0 p).kills := by
      rw [hkm]
      exact add_nonneg hk0 hpk
    have hhm : (mergePlayerStat r0 p).hsPercent =
        some (if 0 < r0.kills + p.kills then
          ((r0.kills + p.kills - p.kills) * (h0 / 100) + p.kills * (ph / 100)) /
            (r0.kills + p.kills) * 100
        else 0) := by
      rw [merge_hsPercent, hph, hh0]
    have hprod : (mergePlayerStat r0 p).kills *
        ((mergePlayerStat r0 p).hsPercent).getD 0 = r0.kills * h0 + p.kills * ph := by
      rw [hkm, hhm, Option.getD_some]
      by_cases hpos : 0 < r0.kills + p.kills
      · rw [if_pos hpos]
        have hne : r0.kills + p.kills ≠ 0 := ne_of_gt hpos
        field_simp
        ring
      · have hzero : r0.kills + p.kills = 0 :=
          le_antisymm (not_lt.mp hpos) (add_nonneg hk0 hpk)
        have hr0z : r0.kills = 0 := by linarith
        have hpz : p.kills = 0 := by linarith
        rw [if_neg hpos, hzero, hr0z, hpz]
        ring
    obtain ⟨hsome2, hnn2, hsum2⟩ := ih (mergePlayerStat r0 p) _ hhm hnn
      (fun r hr => hall r (List.mem_cons_of_mem _ hr))
    refine ⟨hsome2, hnn2, ?_⟩
    rw [hsum2]
    have hval : (mergePlayerStat r0 p).kills *
        (if 0 < r0.kills + p.kills then
          ((r0.kills + p.kills - p.kills) * (h0 / 100) + p.kills * (ph / 100)) /
            (r0.kills + p.kills) * 100
        else 0) = r0.kills * h0 + p.kills * ph := by
      have h2 := hprod
      rw [hhm, Option.getD_some] at h2
      exact h2
    rw [hval, List.map_cons, List.sum_cons, hph, Option.getD_some]
    ring

theorem foldl_maps_eq (k : TeamKey) :
    ∀ (maps : List NormalizedMapStats) (rows : List NormalizedPlayerStat)
      (acc : List NormalizedPlayerStat),
      maps.map (selectTeam k) = rows.map (fun r => [r]) →
      maps.foldl (fun acc m => (selectTeam k m).foldl upsertPlayer acc) acc =
        rows.foldl upsertPlayer acc := by
  intro maps
  induction maps with
  | nil =>
    intro rows acc h
    cases rows with
    | nil => rfl
    | cons r rows2 => simp at h
  | cons m maps ih =>
    intro rows acc h
    cases rows with
    | nil => simp at h
    | cons r rows2 =>
      rw [List.map_cons, List.map_cons] at h
      injection h with h1 h2
      rw [List.foldl_cons, List.foldl_cons, h1]
      exact ih rows2 (upsertPlayer acc r) h2

theorem foldl_upsert_single (r0 : NormalizedPlayerStat)
    (rest : List NormalizedPlayerStat) :
    ∀ e : NormalizedPlayerStat, e.playerId = r0.playerId →
      (∀ r ∈ rest, r.playerId = r0.playerId) →
      rest.foldl upsertPlayer [e] = [rest.foldl mergePlayerStat e] := by
  induction rest with
  | nil => intro e _ _; rfl
  | cons p rest ih =>
    intro e he hall
    rw [List.foldl_cons, List.foldl_cons]
    have hup : upsertPlayer [e] p = [mergePlayerStat e p] := by
      unfold upsertPlayer
      have hpid : (e.playerId == p.playerId) = true := by
        rw [beq_iff_eq, he, hall p (List.mem_cons_self _ _)]
      rw [if_pos (by simp [hpid])]
      rw [List.map_cons, List.map_nil, if_pos hpid]
    rw [hup]
    exact ih (mergePlayerStat e p) (by rw [merge_playerId, he])
      (fun r hr => hall r (List.mem_cons_of_mem _ hr))

theorem aggregate_single_player (k : TeamKey) (maps : List NormalizedMapStats)
    (r0 : NormalizedPlayerStat) (rest : List NormalizedPlayerStat)
    (hmaps : maps.map (selectTeam k) = (r0 :: rest).map (fun r => [r]))
    (hpid : ∀ r ∈ rest, r.playerId = r0.playerId) :
    aggregatePlayerStats maps k = [rest.foldl mergePlayerStat r0] := by
  unfold aggregatePlayerStats
  rw [foldl_maps_eq k maps (r0 :: rest) [] hmaps, List.foldl_cons]
  have h1 : upsertPlayer [] r0 = [r0] := rfl
  rw [h1]
  exact foldl_upsert_single r0 rest r0 rfl hpid

/-- C5 amended: the cross-map aggregation rules, for a player appearing
once in the chosen team list of every map.  Kills, deaths, assists,
MVPs and the multi-kill counts are summed; kdDiff and kdRatio are
recomputed from the summed totals; when every map carries a headshot
percentage (and kill counts are non-negative, as real stat rows are),
the aggregate satisfies the kills-weighted identity
`total-kills × hs% = Σ (per-map-kills × per-map-hs%)`, and when the
summed kills are positive the headshot percentage equals
`Σ (kills × hs%) / Σ kills`; K/R ratio, ADR, KAST and rating are
combined by the pairwise running average; and aggregating N identical
rows yields N-times kills/deaths/assists and — provided the common kill
count is positive (with zero kills the code emits 0 instead) — the
common headshot percentage. -/
theorem aggregatePlayerStats_rules
    (maps : List NormalizedMapStats) (k : TeamKey)
    (r0 : NormalizedPlayerStat) (rest : List NormalizedPlayerStat)
    (hmaps : maps.map (selectTeam k) = ((r0 :: rest).map (fun r => [r])))
    (hpid : ∀ r ∈ rest, r.playerId = r0.playerId)
    (hkd0 : kdInvariant r0) :
    ∃ R, aggregatePlayerStats maps k = [R] ∧
      (R.kills = ((r0 :: rest).map (fun r => r.kills)).sum ∧
       R.deaths = ((r0 :: rest).map (fun r => r.deaths)).sum ∧
       R.assists = ((r0 :: rest).map (fun r => r.assists)).sum) ∧
      kdInvariant R ∧
      ((∀ r ∈ r0 :: rest, (r.mvps).isSome = true) →
        R.mvps = some (((r0 :: rest).map (fun r => (r.mvps).getD 0)).sum)) ∧
      ((∀ r ∈ r0 :: rest, (r.tripleKills).isSome = true) →
        R.tripleKills = some (((r0 :: rest).map (fun r => (r.tripleKills).getD 0)).sum)) ∧
      ((∀ r ∈ r0 :: rest, (r.quadroKills).isSome = true) →
        R.quadroKills = some (((r0 :: rest).map (fun r => (r.quadroKills).getD 0)).sum)) ∧
      ((∀ r ∈ r0 :: rest, (r.pentaKills).isSome = true) →
        R.pentaKills = some (((r0 :: rest).map (fun r => (r.pentaKills).getD 0)).sum)) ∧
      ((∀ r ∈ r0 :: rest, (r.hsPercent).isSome = true ∧ 0 ≤ r.kills) →
        R.kills * (R.hsPercent).getD 0 =
          ((r0 :: rest).map (fun r => r.kills * (r.hsPercent).getD 0)).sum ∧
        (0 < R.kills → R.hsPercent =
          some ((((r0 :: rest).map (fun r => r.kills * (r.hsPercent).getD 0)).sum) /
            (((r0 :: rest).map (fun r => r.kills)).sum)))) ∧
      (∀ v0, r0.krRatio = some v0 → (∀ r ∈ rest, (r.krRatio).isSome = true) →
        R.krRatio = some (runningAvg v0 (rest.map (fun r => (r.krRatio).getD 0)))) ∧
      (∀ v0, r0.adr = some v0 → (∀ r ∈ rest, (r.adr).isSome = true) →
        R.adr = some (runningAvg v0 (rest.map (fun r => (r.adr).getD 0)))) ∧
      (∀ v0, r0.kast = some v0 → (∀ r ∈ rest, (r.kast).isSome = true) →
        R.kast = some (runningAvg v0 (rest.map (fun r => (r.kast).getD 0)))) ∧
      (∀ v0, r0.rating = some v0 → (∀ r ∈ rest, (r.rating).isSome = true) →
        R.rating = some (runningAvg v0 (rest.map (fun r => (r.rating).getD 0)))) ∧
      (∀ (n : Nat) (r : NormalizedPlayerStat), r0 :: rest = List.replicate (n + 1) r →
        R.kills = (n + 1 : ℚ) * r.kills ∧
        R.deaths = (n + 1 : ℚ) * r.deaths ∧
        R.assists = (n + 1 : ℚ) * r.assists ∧
        (∀ h : ℚ, r.hsPercent = some h → 0 < r.kills → R.hsPercent = some h)) := by
  have hagg := aggregate_single_player k maps r0 rest hmaps hpid
  obtain ⟨hk, hd, ha⟩ := foldl_merge_sums rest r0
  have hkills : (rest.foldl mergePlayerStat r0).kills =
      ((r0 :: rest).map (fun r => r.kills)).sum := by
    rw [List.map_cons, List.sum_cons, hk]
  have hdeaths : (rest.foldl mergePlayerStat r0).deaths =
      ((r0 :: rest).map (fun r => r.deaths)).sum := by
    rw [List.map_cons, List.sum_cons, hd]
  have hassists : (rest.foldl mergePlayerStat r0).assists =
      ((r0 :: rest).map (fun r => r.assists)).sum := by
    rw [List.map_cons, List.sum_cons, ha]
  have hhs : (∀ r ∈ r0 :: rest, (r.hsPercent).isSome = true ∧ 0 ≤ r.kills) →
      (rest.foldl mergePlayerStat r0).kills *
          ((rest.foldl mergePlayerStat r0).hsPercent).getD 0 =
        ((r0 :: rest).map (fun r => r.kills * (r.hsPercent).getD 0)).sum ∧
      (0 < (rest.foldl mergePlayerStat r0).kills →
        (rest.foldl mergePlayerStat r0).hsPercent =
        some ((((r0 :: rest).map (fun r => r.kills * (r.hsPercent).getD 0)).sum) /
          (((r0 :: rest).map (fun r => r.kills)).sum))) := by
    intro hall
    obtain ⟨h0, hh0⟩ := Option.isSome_iff_exists.mp
      (hall r0 (List.mem_cons_self _ _)).1
    obtain ⟨hsome, hnn, hsum⟩ := foldl_merge_hs rest r0 h0 hh0
      (hall r0 (List.mem_cons_self _ _)).2
      (fun r hr => hall r (List.mem_cons_of_mem _ hr))
    have hW : (rest.foldl mergePlayerStat r0).kills *
        ((rest.foldl mergePlayerStat r0).hsPercent).getD 0 =
        ((r0 :: rest).map (fun r => r.kills * (r.hsPercent).getD 0)).sum := by
      rw [hsum, List.map_cons, List.sum_cons, hh0, Option.getD_some]
    refine ⟨hW, ?_⟩
    intro hpos
    obtain ⟨v, hv⟩ := Option.isSome_iff_exists.mp hsome
    rw [hv]
    congr 1
    have hKpos : 0 < ((r0 :: rest).map (fun r => r.kills)).sum := hkills ▸ hpos
    rw [eq_div_iff (ne_of_gt hKpos)]
    have hprod : (rest.foldl mergePlayerStat r0).kills * v =
        ((r0 :: rest).map (fun r => r.kills * (r.hsPercent).getD 0)).sum := by
      rw [← hW, hv, Option.getD_some]
    rw [mul_comm, ← hkills]
    exact hprod
  refine ⟨rest.foldl mergePlayerStat r0, hagg, ⟨hkills, hdeaths, hassists⟩,
    foldl_merge_kd rest r0 hkd0, ?_, ?_, ?_, ?_, hhs, ?_, ?_, ?_, ?_, ?_⟩
  · intro hall
    obtain ⟨v0, hv0⟩ := Option.isSome_iff_exists.mp (hall r0 (List.mem_cons_self _ _))
    rw [foldl_merge_mvps rest r0 v0 hv0 (fun r hr => hall r (List.mem_cons_of_mem _ hr)),
      List.map_cons, List.sum_cons, hv0, Option.getD_some]
  · intro hall
    obtain ⟨v0, hv0⟩ := Option.isSome_iff_exists.mp (hall r0 (List.mem_cons_self _ _))
    rw [foldl_merge_tripleKills rest r0 v0 hv0
        (fun r hr => hall r (List.mem_cons_of_mem _ hr)),
      List.map_cons, List.sum_cons, hv0, Option.getD_some]
  · intro hall
    obtain ⟨v0, hv0⟩ := Option.isSome_iff_exists.mp (hall r0 (List.mem_cons_self _ _))
    rw [foldl_merge_quadroKills rest r0 v0 hv0
        (fun r hr => hall r (List.mem_cons_of_mem _ hr)),
      List.map_cons, List.sum_cons, hv0, Option.getD_some]
  · intro hall
    obtain ⟨v0, hv0⟩ := Option.isSome_iff_exists.mp (hall r0 (List.mem_cons_self _ _))
    rw [foldl_merge_pentaKills rest r0 v0 hv0
        (fun r hr => hall r (List.mem_cons_of_mem _ hr)),
      List.map_cons, List.sum_cons, hv0, Option.getD_some]
  · intro v0 hv0 hall
    exact foldl_merge_krRatio rest r0 v0 hv0 hall
  · intro v0 hv0 hall
    exact foldl_merge_adr rest r0 v0 hv0 hall
  · intro v0 hv0 hall
    exact foldl_merge_kast rest r0 v0 hv0 hall
  · intro v0 hv0 hall
    exact foldl_merge_rating rest r0 v0 hv0 hall
  · intro n r hrep
    have hmapsum : ∀ f : NormalizedPlayerStat → ℚ,
        ((r0 :: rest).map f).sum = (n + 1 : ℚ) * f r := by
      intro f
      rw [hrep, List.map_replicate, List.sum_replicate, nsmul_eq_mul]
      push_cast
      ring
    refine ⟨by rw [hkills, hmapsum], by rw [hdeaths, hmapsum],
      by rw [hassists, hmapsum], ?_⟩
    intro h hr hkr
    have hall : ∀ x ∈ r0 :: rest, (x.hsPercent).isSome = true ∧ 0 ≤ x.kills := by
      intro x hx
      rw [hrep] at hx
      have hx2 := List.eq_of_mem_replicate hx
      subst hx2
      exact ⟨by rw [hr]; rfl, le_of_lt hkr⟩
    obtain ⟨hW, hval⟩ := hhs hall
    have hpos : 0 < (rest.foldl mergePlayerStat r0).kills := by
      rw [hkills, hmapsum]
      have hn1 : (0 : ℚ) < (n + 1 : ℚ) := by positivity
      exact mul_pos hn1 hkr
    rw [hval hpos]
    congr 1
    rw [hmapsum (fun r => r.kills * (r.hsPercent).getD 0), hmapsum (fun r => r.kills)]
    rw [hr, Option.getD_some]
    have hn1 : ((n : ℚ) + 1) ≠ 0 := by positivity
    field_simp
    ring

/-- A per-map row with zero kills but a spurious positive headshot
percentage — representable, since the FACEIT normalizer passes the
payload's percentage through unvalidated. -/
def hsZeroRow : NormalizedPlayerStat :=
  { playerId := "z", nickname := "zed", kills := 0, deaths := 0, assists := 0,
    kdDiff := 0, kdRatio := 0, hsPercent := some 50 }

def hsZeroMap : NormalizedMapStats :=
  { mapName := "Nuke", mapNumber := 1, team1Score := 0, team2Score := 0,
    team1Won := false, team1Players := [hsZeroRow], team2Players := [] }

/-- C5 counterexample: aggregating two maps with identical per-map
values whose common kill count is 0 yields headshot percentage 0, not
the common per-map value 50 — the merge's `kills > 0` guard replaces the
weighted average with 0, so the claimed "hsPercent equals the common
per-map value" fails without a positive-kills proviso. -/
theorem aggregate_identical_hs_cex :
    (aggregatePlayerStats [hsZeroMap, hsZeroMap] TeamKey.team1Players).map
      (fun r => r.hsPercent) = [some 0] ∧
    ¬ (some (0 : ℚ) = some (50 : ℚ)) := by
  constructor
  · have hagg : aggregatePlayerStats [hsZeroMap, hsZeroMap] TeamKey.team1Players =
        [mergePlayerStat hsZeroRow hsZeroRow] := rfl
    rw [hagg, List.map_cons, List.map_nil]
    have hhs2 : (mergePlayerStat hsZeroRow hsZeroRow).hsPercent = some 0 := by
      rw [merge_hsPercent]
      norm_num [hsZeroRow]
    rw [hhs2]
  · intro hc
    injection hc with hc2
    norm_num at hc2

/-- A second per-map row for the same player, with different values. -/
def exAggRowB : NormalizedPlayerStat :=
  { playerId := "p1", nickname := "alice", kills := 15, deaths := 3, assists := 1,
    kdDiff := 12, kdRatio := 5, hsPercent := some 60, krRatio := some 2,
    mvps := some 1 }

def exMapB : NormalizedMapStats :=
  { mapName := "Inferno", mapNumber := 2, team1Score := 13, team2Score := 11,
    team1Won := true, team1Players := [exAggRowB], team2Players := [] }

/-- Witness for `aggregatePlayerStats_rules` on two concrete maps. -/
theorem aggregatePlayerStats_rules_witness :
    ∃ R, aggregatePlayerStats [exMap, exMapB] TeamKey.team1Players = [R] ∧
      R.kills = ([exAggRow, exAggRowB].map (fun r => r.kills)).sum ∧
      kdInvariant R := by
  obtain ⟨R, h1, h2, h3, _⟩ := aggregatePlayerStats_rules [exMap, exMapB]
    TeamKey.team1Players exAggRow [exAggRowB] rfl
    (by
      intro r hr
      rw [List.mem_singleton] at hr
      subst hr
      rfl)
    exAggRow_kd
  exact ⟨R, h1, h2.1, h3⟩

-- ─── Part 3: tournament series grouping (source: groupBySerie) ──────

inductive TStatus where
  | ongoing
  | upcoming
  | completed
deriving DecidableEq, Repr

structure PSLeague where
  id : Nat
  name : String
  url : Option String
  image_url : Option String
deriving DecidableEq, Repr

structure PSSerie where
  id : Nat
  full_name : Option String
  name : Option String
  year : Option Nat
deriving DecidableEq, Repr

/-- A tournament annotated by the caller with a pre-computed status and
region flag (the source's `_status` / `_isNA`). -/
structure AnnotatedTournament where
  id : Nat
  name : String
  tier : String
  begin_at : Option String
  end_at : Option String
  league : PSLeague
  serie : PSSerie
  _status : TStatus
  _isNA : Bool
deriving DecidableEq, Repr

structure ProEvent where
  id : String
  name : String
  tier : String
  league : String
  leagueImageUrl : Option String
  startDate : String
  endDate : Option String
  status : TStatus
  url : Option String
  isNA : Bool
  serieId : Option Nat := none
  tournamentCount : Option Nat := none
deriving DecidableEq, Repr

/-- JavaScript `toLowerCase` / `toUpperCase`, defined on character
lists so they reduce in the kernel (identical for the ASCII tier and
name strings this code handles). -/
def strToLower (s : String) : String :=
  String.mk (s.data.map Char.toLower)

def strToUpper (s : String) : String :=
  String.mk (s.data.map Char.toUpper)

/-- `TIER_RANK[key] ?? 99` of the source: s/a/b/c/d rank 0–4, anything
else 99 (unranked sorts last). -/
def TIER_RANK (s : String) : Nat :=
  if s = "s" then 0
  else if s = "a" then 1
  else if s = "b" then 2
  else if s = "c" then 3
  else if s = "d" then 4
  else 99

/-- The grouping key: the series id when truthy (non-zero), else the
tournament's own id. -/
def groupKey (t : AnnotatedTournament) : String :=
  if t.serie.id ≠ 0 then "serie-" ++ toString t.serie.id
  else "tour-" ++ toString t.id

/-- JavaScript `a || b` over an optional string: `b` when `a` is absent
or empty (the empty string is falsy). -/
def strOrElse (a : Option String) (b : String) : String :=
  match a with
  | some s => if s = "" then b else s
  | none => b

/-- `serie.full_name || serie.name || ''`. -/
def serieNameOf (s : PSSerie) : String :=
  strOrElse s.full_name (strOrElse s.name "")

/-- `tier?.toUpperCase() || '?'`. -/
def tierDisplay (s : String) : String :=
  if strToUpper s = "" then "?" else strToUpper s

/-- Lexicographic comparison of strings by character code — the order
JavaScript's default `Array.sort` applies to strings (defined on
character lists so it reduces in the kernel). -/
def strLeb : List Char → List Char → Bool
  | [], _ => true
  | _ :: _, [] => false
  | a :: as, b :: bs =>
    if a.toNat < b.toNat then true
    else if b.toNat < a.toNat then false
    else strLeb as bs

def strLe (a b : String) : Bool :=
  strLeb a.data b.data

/-- One step of the source's tier reduction: keep the strictly better
rank (comparing lower-cased tiers). -/
def bestTierStep (best : String) (t : AnnotatedTournament) : String :=
  if TIER_RANK (strToLower t.tier) < TIER_RANK (strToLower best) then t.tier else best

/-- The tier reduction of the source: fold over the whole group starting
from the first member's tier. -/
def bestTier (first : AnnotatedTournament) (group : List AnnotatedTournament) : String :=
  group.foldl bestTierStep first.tier

def singletonEvent (t : AnnotatedTournament) : ProEvent :=
  let serieName := serieNameOf t.serie
  { id := "ps-" ++ toString t.id
    name := if serieName = "" then t.league.name ++ " - " ++ t.name
      else t.league.name ++ ": " ++ serieName ++ " - " ++ t.name
    tier := tierDisplay t.tier
    league := t.league.name
    leagueImageUrl := t.league.image_url
    startDate := t.begin_at.getD ""
    endDate := t.end_at
    status := t._status
    url := t.league.url
    isNA := t._isNA }

def multiEvent (first : AnnotatedTournament) (group : List AnnotatedTournament) : ProEvent :=
  let serieName := serieNameOf first.serie
  let beginDates := (group.filterMap (fun t => t.begin_at)).filter (fun s => !(s == ""))
  let endDates := (group.filterMap (fun t => t.end_at)).filter (fun s => !(s == ""))
  { id := "ps-serie-" ++ toString first.serie.id
    name := if serieName = "" then first.league.name
      else first.league.name ++ ": " ++ serieName
    tier := tierDisplay (bestTier first group)
    league := first.league.name
    leagueImageUrl := first.league.image_url
    startDate := ((beginDates.insertionSort (fun a b => strLe a b = true)).head?).getD ""
    endDate := ((endDates.insertionSort (fun a b => strLe a b = true)).reverse).head?
    status := if group.any (fun t => t._status == TStatus.ongoing) then TStatus.ongoing
      else if group.any (fun t => t._status == TStatus.upcoming) then TStatus.upcoming
      else TStatus.completed
    url := first.league.url
    isNA := group.any (fun t => t._isNA)
    serieId := some first.serie.id
    tournamentCount := some group.length }

def eventOfGroup (group : List AnnotatedTournament) : Option ProEvent :=
  match group with
  | [] => none
  | [t] => some (singletonEvent t)
  | first :: rest => some (multiEvent first (first :: rest))

def groupBySerie (tournaments : List AnnotatedTournament) : List ProEvent :=
  ((tournaments.map groupKey).dedup).filterMap
    (fun k => eventOfGroup (tournaments.filter (fun t => groupKey t == k)))

-- ─── C9: multi-tournament group aggregation ─────────────────────────

/-- The group of tournaments sharing `t`'s grouping key, in input order
(the order the source's Map accumulates them). -/
def sameKeyGroup (ts : List AnnotatedTournament) (t : AnnotatedTournament) :
    List AnnotatedTournament :=
  ts.filter (fun x => groupKey x == groupKey t)

theorem foldl_bestTierStep (l : List AnnotatedTournament) :
    ∀ b : String,
      (l.foldl bestTierStep b = b ∨ ∃ m ∈ l, l.foldl bestTierStep b = m.tier) ∧
      TIER_RANK (strToLower (l.foldl bestTierStep b)) ≤ TIER_RANK (strToLower b) ∧
      (∀ m ∈ l, TIER_RANK (strToLower (l.foldl bestTierStep b)) ≤
        TIER_RANK (strToLower m.tier)) := by
  induction l with
  | nil =>
    intro b
    refine ⟨Or.inl rfl, le_refl _, fun m hm => absurd hm (List.not_mem_nil m)⟩
  | cons t l ih =>
    intro b
    rw [List.foldl_cons]
    obtain ⟨hmem, hle, hall⟩ := ih (bestTierStep b t)
    have hstep_le : TIER_RANK (strToLower (bestTierStep b t)) ≤
        TIER_RANK (strToLower b) := by
      unfold bestTierStep
      split
      · next h => exact le_of_lt h
      · exact le_refl _
    have hstep_t : TIER_RANK (strToLower (bestTierStep b t)) ≤
        TIER_RANK (strToLower t.tier) := by
      unfold bestTierStep
      split
      · exact le_refl _
      · next h => exact le_of_not_lt h
    refine ⟨?_, le_trans hle hstep_le, ?_⟩
    · rcases hmem with h | ⟨m, hm, hm2⟩
      · rw [h]
        unfold bestTierStep
        split
        · exact Or.inr ⟨t, List.mem_cons_self _ _, rfl⟩
        · exact Or.inl rfl
      · exact Or.inr ⟨m, List.mem_cons_of_mem _ hm, hm2⟩
    · intro m hm
      rcases List.mem_cons.mp hm with rfl | hm2
      · exact le_trans hle hstep_t
      · exact hall m hm2

def leagueEx : PSLeague := ⟨7, "VCT", none, none⟩

def serieEx : PSSerie := ⟨42, some "Champions Tour", none, none⟩

def tournA42 : AnnotatedTournament :=
  ⟨100, "Stage 1", "A", some "2025-01-01T00:00:00Z", some "2025-01-10T00:00:00Z",
   leagueEx, serieEx, .completed, false⟩

def tournS42 : AnnotatedTournament :=
  ⟨101, "Stage 2", "S", some "2025-02-01T00:00:00Z", some "2025-02-10T00:00:00Z",
   leagueEx, serieEx, .ongoing, true⟩

/-- C9: for every group of two or more tournaments sharing a grouping
key, `groupBySerie` emits an event whose status is ongoing when some
member is ongoing, else upcoming when some member is upcoming, else
completed; and whose tier is (the display form of) a member tier of
minimal `TIER_RANK` — S before A before B before C before D, unranked
tiers last.  In particular, for the two serie-42 tournaments with tiers
"A" (completed) and "S" (ongoing), the grouped event has tier "S" and
status ongoing. -/
theorem groupBySerie_multi_aggregation (ts : List AnnotatedTournament)
    (t : AnnotatedTournament) (ht : t ∈ ts)
    (hlen : 2 ≤ (sameKeyGroup ts t).length) :
    (∃ ev ∈ groupBySerie ts,
      ((∃ m ∈ sameKeyGroup ts t, m._status = TStatus.ongoing) →
        ev.status = TStatus.ongoing) ∧
      ((¬ ∃ m ∈ sameKeyGroup ts t, m._status = TStatus.ongoing) →
        (∃ m ∈ sameKeyGroup ts t, m._status = TStatus.upcoming) →
        ev.status = TStatus.upcoming) ∧
      ((¬ ∃ m ∈ sameKeyGroup ts t, m._status = TStatus.ongoing) →
        (¬ ∃ m ∈ sameKeyGroup ts t, m._status = TStatus.upcoming) →
        ev.status = TStatus.completed) ∧
      (∃ best, ev.tier = tierDisplay best ∧
        (∃ m ∈ sameKeyGroup ts t, best = m.tier) ∧
        (∀ m ∈ sameKeyGroup ts t,
          TIER_RANK (strToLower best) ≤ TIER_RANK (strToLower m.tier)))) ∧
    (groupBySerie [tournA42, tournS42]).map (fun e => (e.tier, e.status)) =
      [("S", TStatus.ongoing)] := by
  refine ⟨?_, by decide⟩
  have hkey : groupKey t ∈ (ts.map groupKey).dedup :=
    List.mem_dedup.mpr (List.mem_map.mpr ⟨t, ht, rfl⟩)
  rcases hgs : sameKeyGroup ts t with _ | ⟨a, _ | ⟨b2, g3⟩⟩
  · rw [hgs] at hlen
    simp at hlen
  · rw [hgs] at hlen
    simp at hlen
  · have hmem : multiEvent a (a :: b2 :: g3) ∈ groupBySerie ts := by
      unfold groupBySerie
      refine List.mem_filterMap.mpr ⟨groupKey t, hkey, ?_⟩
      show eventOfGroup (sameKeyGroup ts t) = some (multiEvent a (a :: b2 :: g3))
      rw [hgs]
      rfl
    refine ⟨multiEvent a (a :: b2 :: g3), hmem, ?_, ?_, ?_, ?_⟩
    · rintro ⟨m, hm, hms⟩
      have hany : ((a :: b2 :: g3).any (fun x => x._status == TStatus.ongoing)) = true :=
        List.any_eq_true.mpr ⟨m, hm, by simp [hms]⟩
      show (multiEvent a (a :: b2 :: g3)).status = TStatus.ongoing
      unfold multiEvent
      dsimp only
      rw [if_pos hany]
    · intro hno hyes
      have hanyF : ((a :: b2 :: g3).any (fun x => x._status == TStatus.ongoing)) = false := by
        cases hb : ((a :: b2 :: g3).any (fun x => x._status == TStatus.ongoing)) with
        | false => rfl
        | true =>
          obtain ⟨m, hm, hmeq⟩ := List.any_eq_true.mp hb
          exact absurd ⟨m, hm, by simpa using hmeq⟩ hno
      obtain ⟨m, hm, hms⟩ := hyes
      have hanyT : ((a :: b2 :: g3).any (fun x => x._status == TStatus.upcoming)) = true :=
        List.any_eq_true.mpr ⟨m, hm, by simp [hms]⟩
      show (multiEvent a (a :: b2 :: g3)).status = TStatus.upcoming
      unfold multiEvent
      dsimp only
      rw [if_neg (by simp [hanyF]), if_pos hanyT]
    · intro hno hno2
      have hanyF : ((a :: b2 :: g3).any (fun x => x._status == TStatus.ongoing)) = false := by
        cases hb : ((a :: b2 :: g3).any (fun x => x._status == TStatus.ongoing)) with
        | false => rfl
        | true =>
          obtain ⟨m, hm, hmeq⟩ := List.any_eq_true.mp hb
          exact absurd ⟨m, hm, by simpa using hmeq⟩ hno
      have hanyF2 : ((a :: b2 :: g3).any (fun x => x._status == TStatus.upcoming)) = false := by
        cases hb : ((a :: b2 :: g3).any (fun x => x._status == TStatus.upcoming)) with
        | false => rfl
        | true =>
          obtain ⟨m, hm, hmeq⟩ := List.any_eq_true.mp hb
          exact absurd ⟨m, hm, by simpa using hmeq⟩ hno2
      show (multiEvent a (a :: b2 :: g3)).status = TStatus.completed
      unfold multiEvent
      dsimp only
      rw [if_neg (by simp [hanyF]), if_neg (by simp [hanyF2])]
    · refine ⟨bestTier a (a :: b2 :: g3), rfl, ?_, ?_⟩
      · obtain ⟨hmem2, _, _⟩ := foldl_bestTierStep (a :: b2 :: g3) a.tier
        rcases hmem2 with h | ⟨m, hm, hm2⟩
        · exact ⟨a, List.mem_cons_self _ _, h⟩
        · exact ⟨m, hm, hm2⟩
      · obtain ⟨_, _, hall2⟩ := foldl_bestTierStep (a :: b2 :: g3) a.tier
        exact hall2

/-- Witness for `groupBySerie_multi_aggregation` on the serie-42 pair. -/
theorem groupBySerie_multi_aggregation_witness :
    ∃ ev ∈ groupBySerie [tournA42, tournS42], ev.status = TStatus.ongoing := by
  obtain ⟨⟨ev, hmem, h1, _, _, _⟩, _⟩ :=
    groupBySerie_multi_aggregation [tournA42, tournS42] tournA42 (by decide) (by decide)
  exact ⟨ev, hmem, h1 ⟨tournS42, by decide, rfl⟩⟩
